import Mathlib

/-! # rhinochip-os, `motorctl/gpcorecom.c`: the command lexer and parser

A shallow embedding of the lexical analyser (`next_token`), of the
recursive-descent parser (`cmd`, `param`, `instr`, `prog`, `parse_cmd`) and of
the per-command reset (`next_cmd`), followed by theorems about them.

Conventions of the embedding.

* The global variables of the C file are the fields of `state_t`; every C
  function becomes a function from the state before the call to the value
  returned and the state after the call.
* A `char` is the natural number of its code (`'A'` is 65, `'a'` 97, `'0'` 48,
  `','` 44, `'-'` 45, `'.'` 46, `'"'` 34).
* `cmd_buf` is a function from indices to bytes; the code reads it only at
  indices below `CMD_BUF_SIZE`.
* `cmd_buf_pos` starts at 0 and is only ever incremented: it is a natural
  number.
* Arithmetic on the `int` fields of a token wraps around at `INT_MAX`, a
  parameter of the target (`int_wrap`).
* The `for` loops recurse on a counter that starts at the number of bytes left
  in the buffer; each loop keeps its own guard `cmd_buf_pos < CMD_BUF_SIZE`,
  which fails no later than the counter reaches zero.
* `next_token_chk` is the same lexer with every array access checked against
  the bounds of the array; it is used for the safety of the accesses only.
-/

namespace Gpcorecom

/-- What the code takes from headers that are not among the sources: the
command end mark `*CMDEND` of `mcuicom.h` and the largest `int` of the target. -/
structure target_t where
  /-- the byte `*CMDEND` -/
  CMDEND : Nat
  /-- the largest value of type `int` -/
  INT_MAX : Nat

/-- The enumeration `token_type_t` of all accepted token types. A variable of
this type is an integer; before the first token it holds none of the six
values (a global starts at 0). -/
abbrev token_type_t := Nat

/-- letter in ASCII representation -/
def TOKEN_LETTER : token_type_t := 256
/-- integer number -/
def TOKEN_INT : token_type_t := 257
/-- decimal number (fixed point number with two decimal positions) -/
def TOKEN_DEC : token_type_t := 258
/-- string -/
def TOKEN_STR : token_type_t := 259
/-- command end mark -/
def TOKEN_CMDEND : token_type_t := 260
/-- parameter separator -/
def TOKEN_COMMA : token_type_t := 261

def MAX_STR_LENGTH : Nat := 64

def CMD_BUF_SIZE : Nat := 128

/-- The union `token_value_t`.

The members `integer` and `decimal` are two structures of two `int`s each, laid
over one another: `decimal.int_part` is the storage of `integer.sign` and
`decimal.dec_part` is the storage of `integer.abs_value`. The code reads across
these two members (the decimal scan accumulates into `dec_part` right after the
integer scan has filled `abs_value`), so the embedding keeps ONE pair of fields
for both. The members `letter` and `string` are never read by the code after a
write through another member, and are kept as fields of their own; for a token
of a given type only the member of that type is meaningful. -/
structure token_value_t where
  letter : Nat
  /-- storage of `integer.sign` and of `decimal.int_part` -/
  sign : Int
  /-- storage of `integer.abs_value` and of `decimal.dec_part` -/
  abs_value : Int
  /-- the member `string.charv`, indices `0 .. MAX_STR_LENGTH - 1` -/
  charv : Nat → Nat
  /-- the member `string.length` -/
  length : Nat

/-- The member `decimal.int_part`: the first `int` of the union. -/
def token_value_t.int_part (v : token_value_t) : Int := v.sign

/-- The member `decimal.dec_part`: the second `int` of the union. -/
def token_value_t.dec_part (v : token_value_t) : Int := v.abs_value

structure param_t where
  present : Bool
  type : token_type_t
  value : token_value_t

/-- The global variables of `gpcorecom.c`, and one history variable. -/
structure state_t where
  cmd_buf : Nat → Nat
  cmd_buf_pos : Nat
  token_type : token_type_t
  token_value : token_value_t
  cmd_name0 : Nat
  cmd_name1 : Nat
  param1 : param_t
  param2 : param_t
  /-- History variable, not in the source: for every call of `next_token` made
  by the parser since the last `next_cmd`, in order, the cursor at the call and
  the value returned (which the parser discards). -/
  lex_log : List (Nat × Int)

/-- Arithmetic of type `int`: the result is reduced into
`-(INT_MAX+1) .. INT_MAX`. -/
def int_wrap (T : target_t) (x : Int) : Int :=
  (x + ((T.INT_MAX : Int) + 1)) % (2 * ((T.INT_MAX : Int) + 1)) - ((T.INT_MAX : Int) + 1)

/-- The loop of lines 303-310: consume digits, accumulating
`abs_value = abs_value * 10 + digit`. Returns the cursor and `abs_value`. -/
def int_digits_loop (T : target_t) (buf : Nat → Nat) : Nat → Nat → Int → Nat × Int
  | 0, pos, abs_value => (pos, abs_value)
  | n + 1, pos, abs_value =>
    if pos < CMD_BUF_SIZE ∧ 48 ≤ buf pos ∧ buf pos ≤ 57 then
      int_digits_loop T buf n (pos + 1) (int_wrap T (abs_value * 10 + ((buf pos : Int) - 48)))
    else (pos, abs_value)

/-- The loop of lines 320-329: consume at most two digits, accumulating
`dec_part = dec_part * 10 + digit`. Returns the cursor and `dec_part`. -/
def dec_digits_loop (T : target_t) (buf : Nat → Nat) : Nat → Nat → Nat → Int → Nat × Int
  | 0, pos, _, dec_part => (pos, dec_part)
  | n + 1, pos, num_dec_digits, dec_part =>
    if pos < CMD_BUF_SIZE ∧ num_dec_digits < 2 ∧ 48 ≤ buf pos ∧ buf pos ≤ 57 then
      dec_digits_loop T buf n (pos + 1) (num_dec_digits + 1)
        (int_wrap T (dec_part * 10 + ((buf pos : Int) - 48)))
    else (pos, dec_part)

/-- The loop of lines 338-347: copy the bytes of a string literal. Returns the
cursor, `str_length` and `charv`. -/
def str_loop (T : target_t) (buf : Nat → Nat) :
    Nat → Nat → Nat → (Nat → Nat) → Nat × Nat × (Nat → Nat)
  | 0, pos, str_length, charv => (pos, str_length, charv)
  | n + 1, pos, str_length, charv =>
    if pos < CMD_BUF_SIZE ∧ buf pos ≠ 34 ∧ buf pos ≠ T.CMDEND ∧ str_length < MAX_STR_LENGTH then
      str_loop T buf n (pos + 1) (str_length + 1) (Function.update charv str_length (buf pos))
    else (pos, str_length, charv)

/-- Lexical parser `next_token`: the value returned and the state after. -/
def next_token (T : target_t) (s : state_t) : Int × state_t :=
  if s.cmd_buf_pos < CMD_BUF_SIZE then
    let c := s.cmd_buf s.cmd_buf_pos
    -- Uppercase letters
    if 65 ≤ c ∧ c ≤ 90 then
      (0, { s with token_type := TOKEN_LETTER
                   token_value := { s.token_value with letter := c }
                   cmd_buf_pos := s.cmd_buf_pos + 1 })
    -- Lowercase letters
    else if 97 ≤ c ∧ c ≤ 122 then
      (0, { s with token_type := TOKEN_LETTER
                   token_value := { s.token_value with letter := c - (97 - 65) }
                   cmd_buf_pos := s.cmd_buf_pos + 1 })
    -- Comma (parameter separator)
    else if c = 44 then
      (0, { s with token_type := TOKEN_COMMA, cmd_buf_pos := s.cmd_buf_pos + 1 })
    -- Numbers
    else if c = 45 ∨ (48 ≤ c ∧ c ≤ 57) then
      -- `if (cmd_buf[cmd_buf_pos++] == '-')`: the byte is consumed either way
      let sign : Int := if c = 45 then -1 else 1
      let pos1 := s.cmd_buf_pos + 1
      let r := int_digits_loop T s.cmd_buf (CMD_BUF_SIZE - pos1) pos1 0
      if r.1 < CMD_BUF_SIZE ∧ s.cmd_buf r.1 = 46 then
        let pos2 := r.1 + 1
        -- `decimal.int_part = integer.sign * integer.abs_value` overwrites the sign;
        -- `decimal.dec_part` is the storage of `integer.abs_value`, left as it is
        let int_part := int_wrap T (sign * r.2)
        let d := dec_digits_loop T s.cmd_buf (CMD_BUF_SIZE - pos2) pos2 0 r.2
        (0, { s with token_type := TOKEN_DEC
                     token_value := { s.token_value with sign := int_part, abs_value := d.2 }
                     cmd_buf_pos := d.1 })
      else
        (0, { s with token_type := TOKEN_INT
                     token_value := { s.token_value with sign := sign, abs_value := r.2 }
                     cmd_buf_pos := r.1 })
    -- String literals
    else if c = 34 then
      let pos1 := s.cmd_buf_pos + 1
      let r := str_loop T s.cmd_buf (CMD_BUF_SIZE - pos1) pos1 0 s.token_value.charv
      let retval : Int :=
        if r.1 ≥ CMD_BUF_SIZE ∨ s.cmd_buf r.1 = T.CMDEND then -1 else 0
      (retval, { s with token_type := TOKEN_STR
                        token_value := { s.token_value with charv := r.2.2, length := r.2.1 }
                        cmd_buf_pos := r.1 + 1 })
    -- End of command mark
    else if c = T.CMDEND then
      (0, { s with token_type := TOKEN_CMDEND, cmd_buf_pos := s.cmd_buf_pos + 1 })
    -- Other characters: error
    else (-1, s)
  else (0, s)

/-- The statement `next_token();` of the parser: the lexer runs, its return
value is dropped, and the history variable records the call. -/
def call_next_token (T : target_t) (s : state_t) : state_t :=
  let r := next_token T s
  { r.2 with lex_log := r.2.lex_log ++ [(s.cmd_buf_pos, r.1)] }

/-- Non-terminal symbol `cmd`. -/
def cmd (T : target_t) (s : state_t) : Int × state_t :=
  if s.token_type = TOKEN_LETTER then
    let s1 := call_next_token T { s with cmd_name0 := s.token_value.letter }
    if s1.token_type = TOKEN_LETTER then
      (0, call_next_token T { s1 with cmd_name1 := s1.token_value.letter })
    else (-1, s1)
  else (-1, s)

/-- The two objects that `param` is called on: `&param1` and `&param2`. -/
inductive param_ref where
  | param1
  | param2
  deriving DecidableEq, Repr

/-- Store through the pointer `param_info`. -/
def param_ref.store (p : param_ref) (s : state_t) (v : param_t) : state_t :=
  match p with
  | .param1 => { s with param1 := v }
  | .param2 => { s with param2 := v }

/-- Non-terminal symbol `param`. -/
def param (T : target_t) (param_info : param_ref) (s : state_t) : Int × state_t :=
  if s.token_type ≠ TOKEN_INT ∧ s.token_type ≠ TOKEN_DEC ∧
      s.token_type ≠ TOKEN_LETTER ∧ s.token_type ≠ TOKEN_STR then
    (-1, s)
  else
    (0, call_next_token T
          (param_info.store s { present := true, type := s.token_type, value := s.token_value }))

/-- Non-terminal symbol `instr`. -/
def instr (T : target_t) (s : state_t) : Int × state_t :=
  let r := cmd T s
  if r.1 > -1 then
    if r.2.token_type = TOKEN_CMDEND then r
    else if r.2.token_type = TOKEN_COMMA then
      let r1 := param T .param1 (call_next_token T r.2)
      if r1.1 > -1 then
        if r1.2.token_type = TOKEN_CMDEND then r1
        else if r1.2.token_type = TOKEN_COMMA then
          param T .param2 (call_next_token T r1.2)
        else (-1, r1.2)
      else r1
    else (-1, r.2)
  else r

/-- Non-terminal symbol `prog`. -/
def prog (s : state_t) : Int × state_t := (-1, s)

/-- The branch of `parse_cmd` that a command ends in. -/
inductive branch_t where
  /-- The branch in which `interpret_cmd()` is called. -/
  | instruction
  /-- The branch commented "save program to EEPROM". -/
  | program
  /-- The branch commented "Syntax error (it's not an instruction nor a program)". -/
  | syntax_error
  deriving DecidableEq, Repr

/-- Function `interpret_cmd`: an empty body. -/
def interpret_cmd (s : state_t) : state_t := s

/-- Parse the command currently stored in the shell buffer. Returns the branch
taken and the state after. -/
def parse_cmd (T : target_t) (s : state_t) : branch_t × state_t :=
  let r := instr T (call_next_token T s)
  if r.1 < 0 then
    let r1 := prog r.2
    if r1.1 < 0 then (.syntax_error, r1.2)
    else (.program, r1.2)
  else (.instruction, interpret_cmd r.2)

/-- Function `next_cmd`: `cmd_buf` becomes `received`, the content that
`mcuicom_read_cmd` leaves in it; the cursor and the two parameters are reset.
The history variable starts again. -/
def next_cmd (received : Nat → Nat) (s : state_t) : state_t :=
  { s with cmd_buf := received
           cmd_buf_pos := 0
           param1 := { s.param1 with present := false }
           param2 := { s.param2 with present := false }
           lex_log := [] }

/-- One turn of the loop of `gpcorecom_interpret_next`. -/
def cycle (T : target_t) (received : Nat → Nat) (s : state_t) : branch_t × state_t :=
  parse_cmd T (next_cmd received s)

/-- The globals as the C start-up code leaves them: all zero. -/
def startup : state_t :=
  { cmd_buf := fun _ => 0
    cmd_buf_pos := 0
    token_type := 0
    token_value := { letter := 0, sign := 0, abs_value := 0, charv := fun _ => 0, length := 0 }
    cmd_name0 := 0
    cmd_name1 := 0
    param1 := { present := false, type := 0,
                value := { letter := 0, sign := 0, abs_value := 0, charv := fun _ => 0, length := 0 } }
    param2 := { present := false, type := 0,
                value := { letter := 0, sign := 0, abs_value := 0, charv := fun _ => 0, length := 0 } }
    lex_log := [] }

/-- A buffer that holds the bytes of `text` from index 0 on, and 0 after them. -/
def buf_of (text : List Nat) : Nat → Nat := fun i => text.getD i 0

/-- A target whose command end mark is the line feed (the comment at line 357)
and whose `int` has 16 bits. -/
def lf16 : target_t := { CMDEND := 10, INT_MAX := 32767 }

/-! ### Vocabulary of the statements -/

/-- An ASCII letter, upper or lower case. -/
def is_letter (c : Nat) : Prop := (65 ≤ c ∧ c ≤ 90) ∨ (97 ≤ c ∧ c ≤ 122)

instance (c : Nat) : Decidable (is_letter c) := by
  unfold is_letter; infer_instance

/-- An ASCII digit. -/
def is_digit (c : Nat) : Prop := 48 ≤ c ∧ c ≤ 57

instance (c : Nat) : Decidable (is_digit c) := by
  unfold is_digit; infer_instance

/-- The upper case of a letter. -/
def to_upper (c : Nat) : Nat := if 97 ≤ c ∧ c ≤ 122 then c - 32 else c

/-- The command end mark is a byte of its own: not one of the characters that
letters, numbers, strings and the separator are written with. -/
def end_mark_ok (T : target_t) : Prop :=
  ¬ is_letter T.CMDEND ∧ ¬ is_digit T.CMDEND ∧
    T.CMDEND ≠ 44 ∧ T.CMDEND ≠ 45 ∧ T.CMDEND ≠ 46 ∧ T.CMDEND ≠ 34

instance (T : target_t) : Decidable (end_mark_ok T) := by
  unfold end_mark_ok; infer_instance

/-- The buffer `buf` holds the command `text` from index 0 on, and the command
fits in the buffer. -/
def holds (buf : Nat → Nat) (text : List Nat) : Prop :=
  text.length ≤ CMD_BUF_SIZE ∧ ∀ i, i < text.length → buf i = text.getD i 0

/-- The byte at index `pos` is none of those that start a token. -/
def unknown_char (T : target_t) (buf : Nat → Nat) (pos : Nat) : Prop :=
  ¬ is_letter (buf pos) ∧ ¬ is_digit (buf pos) ∧ buf pos ≠ 44 ∧ buf pos ≠ 45 ∧
    buf pos ≠ 34 ∧ buf pos ≠ T.CMDEND

instance (T : target_t) (buf : Nat → Nat) (pos : Nat) : Decidable (unknown_char T buf pos) := by
  unfold unknown_char; infer_instance

/-- The types of token that `param` accepts. -/
def is_param_type (t : token_type_t) : Prop :=
  t = TOKEN_INT ∨ t = TOKEN_DEC ∨ t = TOKEN_LETTER ∨ t = TOKEN_STR

instance (t : token_type_t) : Decidable (is_param_type t) := by
  unfold is_param_type; infer_instance

/-- The digits `d1 .. dn` as bytes. -/
def digit_bytes (ds : List Nat) : List Nat := ds.map (fun d => 48 + d)

/-- The base-10 value of the digits `d1 .. dn`, most significant first. -/
def base10 (ds : List Nat) : Nat := Nat.ofDigits 10 ds.reverse

/-! ### Calls in a row, pairs of runs, text inside the buffer -/

/-- The state after `n` calls of `next_token` in a row, their return values
dropped. -/
def lex_calls (T : target_t) : Nat → state_t → state_t
  | 0, s => s
  | n + 1, s => lex_calls T n (next_token T s).2

/-- The start-up state with `buf` in the command buffer and the cursor at `pos`. -/
def state_at (buf : Nat → Nat) (pos : Nat) : state_t :=
  { startup with cmd_buf := buf, cmd_buf_pos := pos }

/-- The same token: the same type, and the same value in the member of
`token_value_t` that belongs to the type (the letter; the sign and the absolute
value, that is the integer and the decimal part; the length and the bytes of the
string). -/
def same_token (t1 : token_type_t) (v1 : token_value_t) (t2 : token_type_t)
    (v2 : token_value_t) : Prop :=
  t1 = t2 ∧
  (t1 = TOKEN_LETTER → v1.letter = v2.letter) ∧
  (t1 = TOKEN_INT ∨ t1 = TOKEN_DEC → v1.sign = v2.sign ∧ v1.abs_value = v2.abs_value) ∧
  (t1 = TOKEN_STR → v1.length = v2.length ∧ ∀ i, i < v1.length → v1.charv i = v2.charv i)

/-- The same parameter: both absent, or both present with the same token. -/
def same_param (p q : param_t) : Prop :=
  p.present = q.present ∧ (p.present = true → same_token p.type p.value q.type q.value)

/-- Two states agree on what the lexer and the parser have made of the buffer:
same buffer, same cursor, same current token and same parameters. -/
def states_agree (s t : state_t) : Prop :=
  t.cmd_buf = s.cmd_buf ∧ t.cmd_buf_pos = s.cmd_buf_pos ∧
  same_token s.token_type s.token_value t.token_type t.token_value ∧
  same_param s.param1 t.param1 ∧ same_param s.param2 t.param2

/-- The buffer `buf` holds the bytes of `text` from index `pos` on, inside the
buffer. -/
def holds_at (buf : Nat → Nat) (pos : Nat) (text : List Nat) : Prop :=
  pos + text.length ≤ CMD_BUF_SIZE ∧ ∀ j, j < text.length → buf (pos + j) = text.getD j 0

instance (buf : Nat → Nat) (pos : Nat) (text : List Nat) : Decidable (holds_at buf pos text) := by
  unfold holds_at; infer_instance

/-- A number that stops before index `pos` stops there: the byte at `pos` is
not a digit, or `pos` is the end of the buffer. -/
def number_ends (buf : Nat → Nat) (pos : Nat) : Prop :=
  pos < CMD_BUF_SIZE → ¬ is_digit (buf pos)

instance (buf : Nat → Nat) (pos : Nat) : Decidable (number_ends buf pos) := by
  unfold number_ends; infer_instance

/-- The value that the loop of lines 320-329 leaves in `dec_part` when it starts
from 0 and reads the digits `fs`, in the arithmetic of `int`. -/
def dec_acc (T : target_t) (fs : List Nat) : Int :=
  fs.foldl (fun a d => int_wrap T (a * 10 + (d : Int))) 0

/-! ### The lexer with every array access checked

A second embedding of `next_token`, for the safety of its array accesses: a
read of `cmd_buf` and a write of `charv` give `none` outside the array, in the
order in which the C conditions are evaluated (`&&` and `||` stop at the first
operand that decides), and a loop gives `none` when its counter of iterations
runs out while its condition still holds. -/

/-- The read `cmd_buf[i]`. -/
def read_cmd_buf (buf : Nat → Nat) (i : Nat) : Option Nat :=
  if i < CMD_BUF_SIZE then some (buf i) else none

/-- The write `charv[i] = v`. -/
def write_charv (charv : Nat → Nat) (i v : Nat) : Option (Nat → Nat) :=
  if i < MAX_STR_LENGTH then some (Function.update charv i v) else none

/-- The loop of lines 303-310, checked. -/
def int_digits_loop_chk (T : target_t) (buf : Nat → Nat) :
    Nat → Nat → Int → Option (Nat × Int)
  | 0, pos, abs_value =>
    if pos < CMD_BUF_SIZE then
      (read_cmd_buf buf pos).bind fun c =>
        if 48 ≤ c ∧ c ≤ 57 then none else some (pos, abs_value)
    else some (pos, abs_value)
  | n + 1, pos, abs_value =>
    if pos < CMD_BUF_SIZE then
      (read_cmd_buf buf pos).bind fun c =>
        if 48 ≤ c ∧ c ≤ 57 then
          int_digits_loop_chk T buf n (pos + 1) (int_wrap T (abs_value * 10 + ((c : Int) - 48)))
        else some (pos, abs_value)
    else some (pos, abs_value)

/-- The loop of lines 320-329, checked. -/
def dec_digits_loop_chk (T : target_t) (buf : Nat → Nat) :
    Nat → Nat → Nat → Int → Option (Nat × Int)
  | 0, pos, num_dec_digits, dec_part =>
    if pos < CMD_BUF_SIZE ∧ num_dec_digits < 2 then
      (read_cmd_buf buf pos).bind fun c =>
        if 48 ≤ c ∧ c ≤ 57 then none else some (pos, dec_part)
    else some (pos, dec_part)
  | n + 1, pos, num_dec_digits, dec_part =>
    if pos < CMD_BUF_SIZE ∧ num_dec_digits < 2 then
      (read_cmd_buf buf pos).bind fun c =>
        if 48 ≤ c ∧ c ≤ 57 then
          dec_digits_loop_chk T buf n (pos + 1) (num_dec_digits + 1)
            (int_wrap T (dec_part * 10 + ((c : Int) - 48)))
        else some (pos, dec_part)
    else some (pos, dec_part)

/-- The loop of lines 338-347, checked. -/
def str_loop_chk (T : target_t) (buf : Nat → Nat) :
    Nat → Nat → Nat → (Nat → Nat) → Option (Nat × Nat × (Nat → Nat))
  | 0, pos, str_length, charv =>
    if pos < CMD_BUF_SIZE then
      (read_cmd_buf buf pos).bind fun c =>
        if c ≠ 34 ∧ c ≠ T.CMDEND ∧ str_length < MAX_STR_LENGTH then none
        else some (pos, str_length, charv)
    else some (pos, str_length, charv)
  | n + 1, pos, str_length, charv =>
    if pos < CMD_BUF_SIZE then
      (read_cmd_buf buf pos).bind fun c =>
        if c ≠ 34 ∧ c ≠ T.CMDEND ∧ str_length < MAX_STR_LENGTH then
          (write_charv charv str_length c).bind fun charv1 =>
            str_loop_chk T buf n (pos + 1) (str_length + 1) charv1
        else some (pos, str_length, charv)
    else some (pos, str_length, charv)

/-- Lexical parser `next_token`, checked. -/
def next_token_chk (T : target_t) (s : state_t) : Option (Int × state_t) :=
  if s.cmd_buf_pos < CMD_BUF_SIZE then
    (read_cmd_buf s.cmd_buf s.cmd_buf_pos).bind fun c =>
    if 65 ≤ c ∧ c ≤ 90 then
      some (0, { s with token_type := TOKEN_LETTER
                        token_value := { s.token_value with letter := c }
                        cmd_buf_pos := s.cmd_buf_pos + 1 })
    else if 97 ≤ c ∧ c ≤ 122 then
      some (0, { s with token_type := TOKEN_LETTER
                        token_value := { s.token_value with letter := c - (97 - 65) }
                        cmd_buf_pos := s.cmd_buf_pos + 1 })
    else if c = 44 then
      some (0, { s with token_type := TOKEN_COMMA, cmd_buf_pos := s.cmd_buf_pos + 1 })
    else if c = 45 ∨ (48 ≤ c ∧ c ≤ 57) then
      let sign : Int := if c = 45 then -1 else 1
      let pos1 := s.cmd_buf_pos + 1
      (int_digits_loop_chk T s.cmd_buf (CMD_BUF_SIZE - pos1) pos1 0).bind fun r =>
      -- `cmd_buf_pos < CMD_BUF_SIZE && cmd_buf[cmd_buf_pos] == '.'`
      (if r.1 < CMD_BUF_SIZE then
        (read_cmd_buf s.cmd_buf r.1).bind fun c1 => some (decide (c1 = 46))
       else some false).bind fun dot =>
      if dot = true then
        let pos2 := r.1 + 1
        let int_part := int_wrap T (sign * r.2)
        (dec_digits_loop_chk T s.cmd_buf (CMD_BUF_SIZE - pos2) pos2 0 r.2).bind fun d =>
        some (0, { s with token_type := TOKEN_DEC
                          token_value := { s.token_value with sign := int_part, abs_value := d.2 }
                          cmd_buf_pos := d.1 })
      else
        some (0, { s with token_type := TOKEN_INT
                          token_value := { s.token_value with sign := sign, abs_value := r.2 }
                          cmd_buf_pos := r.1 })
    else if c = 34 then
      let pos1 := s.cmd_buf_pos + 1
      (str_loop_chk T s.cmd_buf (CMD_BUF_SIZE - pos1) pos1 0 s.token_value.charv).bind fun r =>
      -- `cmd_buf_pos >= CMD_BUF_SIZE || cmd_buf[cmd_buf_pos] == *CMDEND`
      (if r.1 ≥ CMD_BUF_SIZE then some true
       else (read_cmd_buf s.cmd_buf r.1).bind fun c1 => some (decide (c1 = T.CMDEND))).bind
      fun err =>
      some (if err = true then -1 else 0,
            { s with token_type := TOKEN_STR
                     token_value := { s.token_value with charv := r.2.2, length := r.2.1 }
                     cmd_buf_pos := r.1 + 1 })
    else if c = T.CMDEND then
      some (0, { s with token_type := TOKEN_CMDEND, cmd_buf_pos := s.cmd_buf_pos + 1 })
    else some (-1, s)
  else some (0, s)

/-! ## Lemmas -/

/-! ### The lexer, one kind of token at a time -/

theorem to_upper_of_upper {c : Nat} (h : 65 ≤ c ∧ c ≤ 90) : to_upper c = c := by
  unfold to_upper
  rw [if_neg]
  omega

theorem tok_letter (T : target_t) (s : state_t) (hp : s.cmd_buf_pos < CMD_BUF_SIZE)
    (hc : is_letter (s.cmd_buf s.cmd_buf_pos)) :
    next_token T s =
      (0, { s with token_type := TOKEN_LETTER
                   token_value := { s.token_value with letter := to_upper (s.cmd_buf s.cmd_buf_pos) }
                   cmd_buf_pos := s.cmd_buf_pos + 1 }) := by
  rcases hc with hc | hc
  · simp [next_token, hp, hc, to_upper_of_upper hc]
  · have h1 : ¬ (65 ≤ s.cmd_buf s.cmd_buf_pos ∧ s.cmd_buf s.cmd_buf_pos ≤ 90) := by omega
    simp [next_token, hp, hc, h1, to_upper]

theorem tok_comma (T : target_t) (s : state_t) (hp : s.cmd_buf_pos < CMD_BUF_SIZE)
    (hc : s.cmd_buf s.cmd_buf_pos = 44) :
    next_token T s =
      (0, { s with token_type := TOKEN_COMMA, cmd_buf_pos := s.cmd_buf_pos + 1 }) := by
  simp [next_token, hp, hc]

theorem tok_cmdend (T : target_t) (hT : end_mark_ok T) (s : state_t)
    (hp : s.cmd_buf_pos < CMD_BUF_SIZE) (hc : s.cmd_buf s.cmd_buf_pos = T.CMDEND) :
    next_token T s =
      (0, { s with token_type := TOKEN_CMDEND, cmd_buf_pos := s.cmd_buf_pos + 1 }) := by
  obtain ⟨e1, e2, e3, e4, e5, e6⟩ := hT
  simp only [is_letter, is_digit, not_or] at e1 e2
  obtain ⟨e1, e1b⟩ := e1
  simp [next_token, hp, hc, e1, e1b, e2, e3, e4, e6]

theorem tok_unknown (T : target_t) (s : state_t) (hp : s.cmd_buf_pos < CMD_BUF_SIZE)
    (hc : unknown_char T s.cmd_buf s.cmd_buf_pos) : next_token T s = (-1, s) := by
  obtain ⟨e1, e2, e3, e4, e5, e6⟩ := hc
  simp only [is_letter, is_digit, not_or] at e1 e2
  obtain ⟨e1, e1b⟩ := e1
  simp [next_token, hp, e1, e1b, e2, e3, e4, e5, e6]

theorem tok_past_end (T : target_t) (s : state_t) (hp : ¬ s.cmd_buf_pos < CMD_BUF_SIZE) :
    next_token T s = (0, s) := by
  simp [next_token, hp]

/-! ### The loops of the lexer -/

theorem int_wrap_of_le (T : target_t) (x : Nat) (h : x ≤ T.INT_MAX) :
    int_wrap T (x : Int) = (x : Int) := by
  unfold int_wrap
  rw [Int.emod_eq_of_lt] <;> omega

theorem int_wrap_id (T : target_t) (x : Int) (h1 : -((T.INT_MAX : Int) + 1) ≤ x)
    (h2 : x ≤ (T.INT_MAX : Int)) : int_wrap T x = x := by
  unfold int_wrap
  rw [Int.emod_eq_of_lt] <;> omega

theorem base10_append (ds fs : List Nat) :
    base10 (ds ++ fs) = base10 ds * 10 ^ fs.length + base10 fs := by
  simp [base10, Nat.ofDigits_append]
  ring

theorem base10_cons (d : Nat) (ds : List Nat) :
    base10 (d :: ds) = d * 10 ^ ds.length + base10 ds := by
  simp [base10, Nat.ofDigits_append, Nat.ofDigits_singleton]
  ring

theorem int_digits_loop_stop (T : target_t) (buf : Nat → Nat) (fuel pos : Nat) (acc : Int)
    (h : ¬ (pos < CMD_BUF_SIZE ∧ 48 ≤ buf pos ∧ buf pos ≤ 57)) :
    int_digits_loop T buf fuel pos acc = (pos, acc) := by
  cases fuel <;> simp [int_digits_loop, h]

theorem int_digits_loop_run (T : target_t) (buf : Nat → Nat) (ds : List Nat) :
    ∀ (fuel pos acc : Nat), (∀ d ∈ ds, d < 10) →
      (∀ j, j < ds.length → buf (pos + j) = 48 + ds.getD j 0) →
      pos + ds.length ≤ CMD_BUF_SIZE → ds.length ≤ fuel →
      acc * 10 ^ ds.length + base10 ds ≤ T.INT_MAX →
      int_digits_loop T buf fuel pos (acc : Int) =
        int_digits_loop T buf (fuel - ds.length) (pos + ds.length)
          ((acc * 10 ^ ds.length + base10 ds : Nat) : Int) := by
  induction ds with
  | nil => intro fuel pos acc _ _ _ _ _; simp [base10]
  | cons d ds ih =>
    intro fuel pos acc hd hbuf hfit hfuel hmax
    have hd0 : d < 10 := hd d (by simp)
    have hb0 : buf pos = 48 + d := by simpa using hbuf 0 (by simp)
    simp only [List.length_cons] at hfit hfuel hmax
    obtain ⟨n, rfl⟩ : ∃ n, fuel = n + 1 := ⟨fuel - 1, by omega⟩
    have hguard : pos < CMD_BUF_SIZE ∧ 48 ≤ buf pos ∧ buf pos ≤ 57 := by omega
    have hval : acc * 10 ^ (ds.length + 1) + base10 (d :: ds) =
        (acc * 10 + d) * 10 ^ ds.length + base10 ds := by
      rw [base10_cons]; ring
    have hpow : 0 < 10 ^ ds.length := by positivity
    have hsmall : acc * 10 + d ≤ T.INT_MAX := by
      have : acc * 10 + d ≤ (acc * 10 + d) * 10 ^ ds.length := Nat.le_mul_of_pos_right _ hpow
      omega
    have hacc : int_wrap T ((acc : Int) * 10 + (((buf pos : Nat) : Int) - 48)) =
        ((acc * 10 + d : Nat) : Int) := by
      rw [← int_wrap_of_le T _ hsmall, hb0]
      congr 1
      push_cast
      ring
    rw [int_digits_loop, if_pos hguard, hacc,
      ih n (pos + 1) (acc * 10 + d) (fun x hx => hd x (by simp [hx]))
        (fun j hj => by
          have := hbuf (j + 1) (by simp; omega)
          simpa [Nat.add_assoc, Nat.add_comm 1 j] using this)
        (by omega) (by omega) (by omega)]
    simp only [List.length_cons, hval]
    congr 1 <;> omega

theorem dec_digits_loop_stop (T : target_t) (buf : Nat → Nat) (fuel pos k : Nat) (acc : Int)
    (h : ¬ (pos < CMD_BUF_SIZE ∧ k < 2 ∧ 48 ≤ buf pos ∧ buf pos ≤ 57)) :
    dec_digits_loop T buf fuel pos k acc = (pos, acc) := by
  cases fuel <;> simp [dec_digits_loop, h]

theorem dec_digits_loop_run (T : target_t) (buf : Nat → Nat) (fs : List Nat) :
    ∀ (fuel pos k acc : Nat), (∀ d ∈ fs, d < 10) →
      (∀ j, j < fs.length → buf (pos + j) = 48 + fs.getD j 0) →
      pos + fs.length ≤ CMD_BUF_SIZE → fs.length ≤ fuel → k + fs.length ≤ 2 →
      acc * 10 ^ fs.length + base10 fs ≤ T.INT_MAX →
      dec_digits_loop T buf fuel pos k (acc : Int) =
        dec_digits_loop T buf (fuel - fs.length) (pos + fs.length) (k + fs.length)
          ((acc * 10 ^ fs.length + base10 fs : Nat) : Int) := by
  induction fs with
  | nil => intro fuel pos k acc _ _ _ _ _ _; simp [base10]
  | cons d fs ih =>
    intro fuel pos k acc hd hbuf hfit hfuel hk hmax
    have hd0 : d < 10 := hd d (by simp)
    have hb0 : buf pos = 48 + d := by simpa using hbuf 0 (by simp)
    simp only [List.length_cons] at hfit hfuel hmax hk
    obtain ⟨n, rfl⟩ : ∃ n, fuel = n + 1 := ⟨fuel - 1, by omega⟩
    have hguard : pos < CMD_BUF_SIZE ∧ k < 2 ∧ 48 ≤ buf pos ∧ buf pos ≤ 57 := by omega
    have hval : acc * 10 ^ (fs.length + 1) + base10 (d :: fs) =
        (acc * 10 + d) * 10 ^ fs.length + base10 fs := by
      rw [base10_cons]; ring
    have hpow : 0 < 10 ^ fs.length := by positivity
    have hsmall : acc * 10 + d ≤ T.INT_MAX := by
      have : acc * 10 + d ≤ (acc * 10 + d) * 10 ^ fs.length := Nat.le_mul_of_pos_right _ hpow
      omega
    have hacc : int_wrap T ((acc : Int) * 10 + (((buf pos : Nat) : Int) - 48)) =
        ((acc * 10 + d : Nat) : Int) := by
      rw [← int_wrap_of_le T _ hsmall, hb0]
      congr 1
      push_cast
      ring
    rw [dec_digits_loop, if_pos hguard, hacc,
      ih n (pos + 1) (k + 1) (acc * 10 + d) (fun x hx => hd x (by simp [hx]))
        (fun j hj => by
          have := hbuf (j + 1) (by simp; omega)
          simpa [Nat.add_assoc, Nat.add_comm 1 j] using this)
        (by omega) (by omega) (by omega) (by omega)]
    simp only [List.length_cons, hval]
    congr 1 <;> omega

theorem str_loop_stop (T : target_t) (buf : Nat → Nat) (fuel pos len : Nat) (charv : Nat → Nat)
    (h : ¬ (pos < CMD_BUF_SIZE ∧ buf pos ≠ 34 ∧ buf pos ≠ T.CMDEND ∧ len < MAX_STR_LENGTH)) :
    str_loop T buf fuel pos len charv = (pos, len, charv) := by
  cases fuel <;> simp only [str_loop, if_neg h]

theorem str_loop_run (T : target_t) (buf : Nat → Nat) (bs : List Nat) :
    ∀ (fuel pos len : Nat) (charv : Nat → Nat), (∀ b ∈ bs, b ≠ 34 ∧ b ≠ T.CMDEND) →
      (∀ j, j < bs.length → buf (pos + j) = bs.getD j 0) →
      pos + bs.length ≤ CMD_BUF_SIZE → bs.length ≤ fuel → len + bs.length ≤ MAX_STR_LENGTH →
      ∃ charv1 : Nat → Nat,
        str_loop T buf fuel pos len charv =
          str_loop T buf (fuel - bs.length) (pos + bs.length) (len + bs.length) charv1 ∧
        (∀ j, j < bs.length → charv1 (len + j) = bs.getD j 0) ∧
        (∀ i, i < len → charv1 i = charv i) := by
  induction bs with
  | nil => intro fuel pos len charv _ _ _ _ _; exact ⟨charv, by simp, by simp, fun _ _ => rfl⟩
  | cons b bs ih =>
    intro fuel pos len charv hb hbuf hfit hfuel hlen
    have hb0 : buf pos = b := by simpa using hbuf 0 (by simp)
    have hbb := hb b (by simp)
    simp only [List.length_cons] at hfit hfuel hlen
    obtain ⟨n, rfl⟩ : ∃ n, fuel = n + 1 := ⟨fuel - 1, by omega⟩
    have hguard : pos < CMD_BUF_SIZE ∧ buf pos ≠ 34 ∧ buf pos ≠ T.CMDEND ∧
        len < MAX_STR_LENGTH := by
      rw [hb0]; exact ⟨by omega, hbb.1, hbb.2, by omega⟩
    obtain ⟨c1, h1, h2, h3⟩ := ih n (pos + 1) (len + 1) (Function.update charv len (buf pos))
      (fun x hx => hb x (by simp [hx]))
      (fun j hj => by
        have := hbuf (j + 1) (by simp; omega)
        simpa [Nat.add_assoc, Nat.add_comm 1 j] using this)
      (by omega) (by omega) (by omega)
    refine ⟨c1, ?_, ?_, ?_⟩
    · rw [str_loop, if_pos hguard, h1]
      simp only [List.length_cons]
      congr 1 <;> omega
    · intro j hj
      cases j with
      | zero =>
        have := h3 len (by omega)
        simpa [hb0] using this
      | succ j =>
        have := h2 j (by simpa using hj)
        simpa [Nat.add_assoc, Nat.add_comm 1 j] using this
    · intro i hi
      have := h3 i (by omega)
      rw [this, Function.update_noteq (by omega)]

theorem int_digits_loop_digits (T : target_t) (buf : Nat → Nat) (ds : List Nat)
    (fuel pos : Nat) (hd : ∀ d ∈ ds, d < 10)
    (hbuf : ∀ j, j < ds.length → buf (pos + j) = 48 + ds.getD j 0)
    (hfit : pos + ds.length ≤ CMD_BUF_SIZE) (hfuel : ds.length ≤ fuel)
    (hmax : base10 ds ≤ T.INT_MAX)
    (hstop : pos + ds.length < CMD_BUF_SIZE → ¬ is_digit (buf (pos + ds.length))) :
    int_digits_loop T buf fuel pos 0 = (pos + ds.length, (base10 ds : Int)) := by
  have h := int_digits_loop_run T buf ds fuel pos 0 hd hbuf hfit hfuel (by simpa using hmax)
  simp only [Nat.cast_zero, zero_mul, zero_add] at h
  rw [h]
  apply int_digits_loop_stop
  intro hg
  exact hstop hg.1 hg.2

/-! ### Texts in the buffer -/

theorem getD_append_mid (pre mid post : List Nat) (j : Nat) (h : j < mid.length) :
    (pre ++ mid ++ post).getD (pre.length + j) 0 = mid.getD j 0 := by
  simp [List.getD_eq_getElem?_getD, List.getElem?_append_right, List.getElem?_append_left, h]

theorem getD_append_post (pre mid post : List Nat) (k : Nat) :
    (pre ++ mid ++ post).getD (pre.length + mid.length + k) 0 = post.getD k 0 := by
  simp [List.getD_eq_getElem?_getD, List.getElem?_append_right, Nat.add_assoc]

theorem holds_mid {buf : Nat → Nat} {pre mid post : List Nat}
    (h : holds buf (pre ++ mid ++ post)) (j : Nat) (hj : j < mid.length) :
    buf (pre.length + j) = mid.getD j 0 := by
  rw [h.2 (pre.length + j) (by simp; omega), getD_append_mid pre mid post j hj]

theorem holds_post {buf : Nat → Nat} {pre mid post : List Nat}
    (h : holds buf (pre ++ mid ++ post)) (k : Nat) (hk : k < post.length) :
    buf (pre.length + mid.length + k) = post.getD k 0 := by
  rw [h.2 (pre.length + mid.length + k) (by simp; omega), getD_append_post]

theorem holds_pre {buf : Nat → Nat} {pre mid post : List Nat}
    (h : holds buf (pre ++ mid ++ post)) (i : Nat) (hi : i < pre.length) :
    buf i = pre.getD i 0 := by
  rw [h.2 i (by simp; omega)]
  simp [List.getD_eq_getElem?_getD, List.getElem?_append_left, hi, List.append_assoc]

theorem digit_bytes_getD (ds : List Nat) (j : Nat) (hj : j < ds.length) :
    (digit_bytes ds).getD j 0 = 48 + ds.getD j 0 := by
  simp [digit_bytes, List.getD_eq_getElem?_getD, hj]

/-! ### The lexer on numbers and strings -/

theorem tok_integer (T : target_t) (buf : Nat → Nat) (pos : Nat) (ds : List Nat)
    (hfirst : buf pos = 45 ∨ is_digit (buf pos)) (hd : ∀ d ∈ ds, d < 10)
    (hbuf : ∀ j, j < ds.length → buf (pos + 1 + j) = 48 + ds.getD j 0)
    (hfit : pos + 1 + ds.length ≤ CMD_BUF_SIZE) (hmax : base10 ds ≤ T.INT_MAX)
    (hstop : pos + 1 + ds.length < CMD_BUF_SIZE →
      ¬ is_digit (buf (pos + 1 + ds.length)) ∧ buf (pos + 1 + ds.length) ≠ 46)
    (s : state_t) (hb : s.cmd_buf = buf) (hpos : s.cmd_buf_pos = pos) :
    next_token T s =
      (0, { s with token_type := TOKEN_INT
                   token_value := { s.token_value with
                                    sign := if buf pos = 45 then -1 else 1
                                    abs_value := (base10 ds : Int) }
                   cmd_buf_pos := pos + 1 + ds.length }) := by
  subst hb hpos
  have hp : s.cmd_buf_pos < CMD_BUF_SIZE := by omega
  have hl := int_digits_loop_digits T s.cmd_buf ds (CMD_BUF_SIZE - (s.cmd_buf_pos + 1))
    (s.cmd_buf_pos + 1) hd hbuf hfit (by omega) hmax (fun h => (hstop h).1)
  have hdot : ¬ (s.cmd_buf_pos + 1 + ds.length < CMD_BUF_SIZE ∧
      s.cmd_buf (s.cmd_buf_pos + 1 + ds.length) = 46) := fun h => (hstop h.1).2 h.2
  have h1 : ¬ (65 ≤ s.cmd_buf s.cmd_buf_pos ∧ s.cmd_buf s.cmd_buf_pos ≤ 90) := by
    unfold is_digit at hfirst; omega
  have h2 : ¬ (97 ≤ s.cmd_buf s.cmd_buf_pos ∧ s.cmd_buf s.cmd_buf_pos ≤ 122) := by
    unfold is_digit at hfirst; omega
  have h3 : ¬ s.cmd_buf s.cmd_buf_pos = 44 := by
    unfold is_digit at hfirst; omega
  have h4 : s.cmd_buf s.cmd_buf_pos = 45 ∨
      (48 ≤ s.cmd_buf s.cmd_buf_pos ∧ s.cmd_buf s.cmd_buf_pos ≤ 57) := hfirst
  simp only [next_token, if_pos hp, if_neg h1, if_neg h2, if_neg h3, if_pos h4, hl, if_neg hdot]

theorem tok_minus_digits (T : target_t) (buf : Nat → Nat) (pos : Nat) (ds : List Nat)
    (hminus : buf pos = 45) (hd : ∀ d ∈ ds, d < 10)
    (hbuf : ∀ j, j < ds.length → buf (pos + 1 + j) = 48 + ds.getD j 0)
    (hfit : pos + 1 + ds.length ≤ CMD_BUF_SIZE) (hmax : base10 ds ≤ T.INT_MAX)
    (hstop : pos + 1 + ds.length < CMD_BUF_SIZE →
      ¬ is_digit (buf (pos + 1 + ds.length)) ∧ buf (pos + 1 + ds.length) ≠ 46)
    (s : state_t) (hb : s.cmd_buf = buf) (hpos : s.cmd_buf_pos = pos) :
    next_token T s =
      (0, { s with token_type := TOKEN_INT
                   token_value := { s.token_value with sign := -1, abs_value := (base10 ds : Int) }
                   cmd_buf_pos := pos + 1 + ds.length }) := by
  rw [tok_integer T buf pos ds (Or.inl hminus) hd hbuf hfit hmax hstop s hb hpos, if_pos hminus]

theorem tok_decimal (T : target_t) (buf : Nat → Nat) (pos : Nat) (ds fs : List Nat)
    (hfirst : buf pos = 45 ∨ is_digit (buf pos)) (hd : ∀ d ∈ ds, d < 10)
    (hbuf : ∀ j, j < ds.length → buf (pos + 1 + j) = 48 + ds.getD j 0)
    (hdot : buf (pos + 1 + ds.length) = 46)
    (hf : ∀ d ∈ fs, d < 10) (hflen : fs.length ≤ 2)
    (hfbuf : ∀ j, j < fs.length → buf (pos + 1 + ds.length + 1 + j) = 48 + fs.getD j 0)
    (hfit : pos + 1 + ds.length + 1 + fs.length ≤ CMD_BUF_SIZE)
    (hmax : base10 (ds ++ fs) ≤ T.INT_MAX)
    (hstop : fs.length < 2 → pos + 1 + ds.length + 1 + fs.length < CMD_BUF_SIZE →
      ¬ is_digit (buf (pos + 1 + ds.length + 1 + fs.length)))
    (s : state_t) (hb : s.cmd_buf = buf) (hpos : s.cmd_buf_pos = pos) :
    next_token T s =
      (0, { s with token_type := TOKEN_DEC
                   token_value := { s.token_value with
                                    sign := (if buf pos = 45 then -1 else 1) * (base10 ds : Int)
                                    abs_value := (base10 (ds ++ fs) : Int) }
                   cmd_buf_pos := pos + 1 + ds.length + 1 + fs.length }) := by
  subst hb hpos
  have hp : s.cmd_buf_pos < CMD_BUF_SIZE := by omega
  have hpow : 0 < 10 ^ fs.length := by positivity
  have happ := base10_append ds fs
  have hmax1 : base10 ds ≤ T.INT_MAX := by
    have : base10 ds ≤ base10 ds * 10 ^ fs.length := Nat.le_mul_of_pos_right _ hpow
    omega
  have hl := int_digits_loop_digits T s.cmd_buf ds (CMD_BUF_SIZE - (s.cmd_buf_pos + 1))
    (s.cmd_buf_pos + 1) hd hbuf (by omega) (by omega) hmax1
    (fun _ => by rw [hdot]; unfold is_digit; omega)
  have hdot1 : s.cmd_buf_pos + 1 + ds.length < CMD_BUF_SIZE ∧
      s.cmd_buf (s.cmd_buf_pos + 1 + ds.length) = 46 := ⟨by omega, hdot⟩
  have hr := dec_digits_loop_run T s.cmd_buf fs
    (CMD_BUF_SIZE - (s.cmd_buf_pos + 1 + ds.length + 1)) (s.cmd_buf_pos + 1 + ds.length + 1)
    0 (base10 ds) hf hfbuf hfit (by omega) (by omega) (by omega)
  rw [dec_digits_loop_stop T s.cmd_buf
    (CMD_BUF_SIZE - (s.cmd_buf_pos + 1 + ds.length + 1) - fs.length)
    (s.cmd_buf_pos + 1 + ds.length + 1 + fs.length) (0 + fs.length) _
    (by
      intro hg
      have h2 : fs.length < 2 := by omega
      exact hstop h2 hg.1 ⟨hg.2.2.1, hg.2.2.2⟩), ← happ] at hr
  have h1 : ¬ (65 ≤ s.cmd_buf s.cmd_buf_pos ∧ s.cmd_buf s.cmd_buf_pos ≤ 90) := by
    unfold is_digit at hfirst; omega
  have h2 : ¬ (97 ≤ s.cmd_buf s.cmd_buf_pos ∧ s.cmd_buf s.cmd_buf_pos ≤ 122) := by
    unfold is_digit at hfirst; omega
  have h3 : ¬ s.cmd_buf s.cmd_buf_pos = 44 := by
    unfold is_digit at hfirst; omega
  have h4 : s.cmd_buf s.cmd_buf_pos = 45 ∨
      (48 ≤ s.cmd_buf s.cmd_buf_pos ∧ s.cmd_buf s.cmd_buf_pos ≤ 57) := hfirst
  have hw : int_wrap T ((if s.cmd_buf s.cmd_buf_pos = 45 then -1 else 1) * (base10 ds : Int)) =
      (if s.cmd_buf s.cmd_buf_pos = 45 then -1 else 1) * (base10 ds : Int) := by
    apply int_wrap_id <;> split_ifs <;> omega
  simp only [next_token, if_pos hp, if_neg h1, if_neg h2, if_neg h3, if_pos h4, hl, if_pos hdot1,
    hr, hw]

theorem str_loop_scan (T : target_t) (buf : Nat → Nat) (pos : Nat) (bs : List Nat)
    (charv : Nat → Nat) (hbs : ∀ b ∈ bs, b ≠ 34 ∧ b ≠ T.CMDEND)
    (hlen : bs.length ≤ MAX_STR_LENGTH)
    (hbuf : ∀ j, j < bs.length → buf (pos + 1 + j) = bs.getD j 0)
    (hfit : pos + 1 + bs.length ≤ CMD_BUF_SIZE)
    (hstop : pos + 1 + bs.length < CMD_BUF_SIZE → bs.length < MAX_STR_LENGTH →
      buf (pos + 1 + bs.length) = 34 ∨ buf (pos + 1 + bs.length) = T.CMDEND) :
    (str_loop T buf (CMD_BUF_SIZE - (pos + 1)) (pos + 1) 0 charv).1 = pos + 1 + bs.length ∧
    (str_loop T buf (CMD_BUF_SIZE - (pos + 1)) (pos + 1) 0 charv).2.1 = bs.length ∧
    (∀ j, j < bs.length →
      (str_loop T buf (CMD_BUF_SIZE - (pos + 1)) (pos + 1) 0 charv).2.2 j = bs.getD j 0) := by
  obtain ⟨c1, h1, h2, -⟩ := str_loop_run T buf bs (CMD_BUF_SIZE - (pos + 1))
    (pos + 1) 0 charv hbs hbuf (by omega) (by omega) (by omega)
  rw [str_loop_stop T buf (CMD_BUF_SIZE - (pos + 1) - bs.length)
    (pos + 1 + bs.length) (0 + bs.length) c1 (by
      intro hg
      rcases hstop hg.1 (by omega) with h | h
      · exact hg.2.1 h
      · exact hg.2.2.1 h)] at h1
  rw [h1]
  exact ⟨rfl, by simp, fun j hj => by simpa using h2 j hj⟩

theorem tok_string_scan (T : target_t) (buf : Nat → Nat) (pos : Nat)
    (bs : List Nat) (hquote : buf pos = 34) (hbs : ∀ b ∈ bs, b ≠ 34 ∧ b ≠ T.CMDEND)
    (hlen : bs.length ≤ MAX_STR_LENGTH)
    (hbuf : ∀ j, j < bs.length → buf (pos + 1 + j) = bs.getD j 0)
    (hfit : pos + 1 + bs.length ≤ CMD_BUF_SIZE)
    (hstop : pos + 1 + bs.length < CMD_BUF_SIZE → bs.length < MAX_STR_LENGTH →
      buf (pos + 1 + bs.length) = 34 ∨ buf (pos + 1 + bs.length) = T.CMDEND)
    (s : state_t) (hb : s.cmd_buf = buf) (hpos : s.cmd_buf_pos = pos) :
    next_token T s =
      (if pos + 1 + bs.length ≥ CMD_BUF_SIZE ∨ buf (pos + 1 + bs.length) = T.CMDEND
        then -1 else 0,
       { s with token_type := TOKEN_STR
                token_value := { s.token_value with
                  charv := (str_loop T buf (CMD_BUF_SIZE - (pos + 1)) (pos + 1) 0
                              s.token_value.charv).2.2
                  length := bs.length }
                cmd_buf_pos := pos + 1 + bs.length + 1 }) := by
  subst hb hpos
  have hp : s.cmd_buf_pos < CMD_BUF_SIZE := by omega
  obtain ⟨e1, e2, -⟩ := str_loop_scan T s.cmd_buf s.cmd_buf_pos bs s.token_value.charv hbs hlen
    hbuf hfit hstop
  have h1 : ¬ (65 ≤ s.cmd_buf s.cmd_buf_pos ∧ s.cmd_buf s.cmd_buf_pos ≤ 90) := by omega
  have h2 : ¬ (97 ≤ s.cmd_buf s.cmd_buf_pos ∧ s.cmd_buf s.cmd_buf_pos ≤ 122) := by omega
  have h3 : ¬ s.cmd_buf s.cmd_buf_pos = 44 := by omega
  have h4 : ¬ (s.cmd_buf s.cmd_buf_pos = 45 ∨
      (48 ≤ s.cmd_buf s.cmd_buf_pos ∧ s.cmd_buf s.cmd_buf_pos ≤ 57)) := by omega
  simp only [next_token, if_pos hp, if_neg h1, if_neg h2, if_neg h3, if_neg h4,
    if_pos hquote, e1, e2]

theorem tok_string (T : target_t) (hq : T.CMDEND ≠ 34) (buf : Nat → Nat) (pos : Nat)
    (bs : List Nat) (hquote : buf pos = 34) (hbs : ∀ b ∈ bs, b ≠ 34 ∧ b ≠ T.CMDEND)
    (hlen : bs.length ≤ MAX_STR_LENGTH)
    (hbuf : ∀ j, j < bs.length → buf (pos + 1 + j) = bs.getD j 0)
    (hclose : buf (pos + 1 + bs.length) = 34) (hfit : pos + 1 + bs.length < CMD_BUF_SIZE)
    (s : state_t) (hb : s.cmd_buf = buf) (hpos : s.cmd_buf_pos = pos) :
    next_token T s =
      (0, { s with token_type := TOKEN_STR
                   token_value := { s.token_value with
                     charv := (str_loop T buf (CMD_BUF_SIZE - (pos + 1)) (pos + 1) 0
                                 s.token_value.charv).2.2
                     length := bs.length }
                   cmd_buf_pos := pos + 1 + bs.length + 1 }) := by
  rw [tok_string_scan T buf pos bs hquote hbs hlen hbuf (by omega) (fun _ _ => Or.inl hclose)
    s hb hpos, if_neg]
  intro h
  rcases h with h | h
  · omega
  · rw [hclose] at h
    exact hq h.symm

theorem tok_cmdend_at (T : target_t) (hT : end_mark_ok T) (buf : Nat → Nat) (pos : Nat)
    (hp : pos < CMD_BUF_SIZE) (hc : buf pos = T.CMDEND)
    (s : state_t) (hb : s.cmd_buf = buf) (hpos : s.cmd_buf_pos = pos) :
    next_token T s =
      (0, { s with token_type := TOKEN_CMDEND, cmd_buf_pos := pos + 1 }) := by
  subst hb hpos
  exact tok_cmdend T hT s hp hc

theorem tok_letter_at (T : target_t) (buf : Nat → Nat) (pos : Nat)
    (hp : pos < CMD_BUF_SIZE) (hc : is_letter (buf pos))
    (s : state_t) (hb : s.cmd_buf = buf) (hpos : s.cmd_buf_pos = pos) :
    next_token T s =
      (0, { s with token_type := TOKEN_LETTER
                   token_value := { s.token_value with letter := to_upper (buf pos) }
                   cmd_buf_pos := pos + 1 }) := by
  subst hb hpos
  exact tok_letter T s hp hc

theorem tok_comma_at (T : target_t) (buf : Nat → Nat) (pos : Nat)
    (hp : pos < CMD_BUF_SIZE) (hc : buf pos = 44)
    (s : state_t) (hb : s.cmd_buf = buf) (hpos : s.cmd_buf_pos = pos) :
    next_token T s =
      (0, { s with token_type := TOKEN_COMMA, cmd_buf_pos := pos + 1 }) := by
  subst hb hpos
  exact tok_comma T s hp hc

theorem tok_unknown_at (T : target_t) (buf : Nat → Nat) (pos : Nat)
    (hp : pos < CMD_BUF_SIZE) (hc : unknown_char T buf pos)
    (s : state_t) (hb : s.cmd_buf = buf) (hpos : s.cmd_buf_pos = pos) :
    next_token T s = (-1, s) := by
  subst hb hpos
  exact tok_unknown T s hp hc

theorem holds_buf_of (text : List Nat) (h : text.length ≤ CMD_BUF_SIZE) :
    holds (buf_of text) text :=
  ⟨h, fun _ _ => rfl⟩

theorem end_mark_ok_lf16 : end_mark_ok lf16 := by decide

/-! ### What the parser sees of a call of the lexer -/

theorem next_token_frame (T : target_t) (s : state_t) :
    (next_token T s).2.cmd_buf = s.cmd_buf ∧ (next_token T s).2.lex_log = s.lex_log := by
  simp only [next_token]
  split_ifs <;> exact ⟨rfl, rfl⟩

theorem call_cmd_buf (T : target_t) (s : state_t) :
    (call_next_token T s).cmd_buf = s.cmd_buf :=
  (next_token_frame T s).1

theorem call_lex_log (T : target_t) (s : state_t) :
    (call_next_token T s).lex_log = s.lex_log ++ [(s.cmd_buf_pos, (next_token T s).1)] := by
  simp [call_next_token, (next_token_frame T s).2]

/-- A call that returns an error either found an unknown character, or found an
opening quote and made a string token. -/
theorem next_token_error (T : target_t) (s : state_t) (h : (next_token T s).1 = -1) :
    (s.cmd_buf_pos < CMD_BUF_SIZE ∧ unknown_char T s.cmd_buf s.cmd_buf_pos) ∨
    (s.cmd_buf s.cmd_buf_pos = 34 ∧ (next_token T s).2.token_type = TOKEN_STR) := by
  by_cases hp : s.cmd_buf_pos < CMD_BUF_SIZE
  · by_cases hq : s.cmd_buf s.cmd_buf_pos = 34
    · right
      exact ⟨hq, by simp [next_token, hp, hq]⟩
    · left
      refine ⟨hp, ?_⟩
      simp only [next_token, if_pos hp, if_neg hq] at h
      split_ifs at h with h1 h2 h3 h4 h5 h6
      all_goals first
        | (exfalso; revert h; simp; done)
        | exact ⟨by unfold is_letter; omega, by unfold is_digit; omega, h3, by omega, hq, h6⟩
  · exfalso
    simp [next_token, hp] at h

/-- After an unknown character the parser still sees the previous token, and
the cursor has not moved. -/
theorem call_unknown (T : target_t) (s : state_t) (hp : s.cmd_buf_pos < CMD_BUF_SIZE)
    (hu : unknown_char T s.cmd_buf s.cmd_buf_pos) :
    (call_next_token T s).token_type = s.token_type ∧
    (call_next_token T s).cmd_buf_pos = s.cmd_buf_pos := by
  simp [call_next_token, tok_unknown T s hp hu]

theorem call_error (T : target_t) (s : state_t) (h : (next_token T s).1 = -1) :
    (s.cmd_buf_pos < CMD_BUF_SIZE ∧ unknown_char T s.cmd_buf s.cmd_buf_pos ∧
      (call_next_token T s).token_type = s.token_type ∧
      (call_next_token T s).cmd_buf_pos = s.cmd_buf_pos) ∨
    (s.cmd_buf s.cmd_buf_pos = 34 ∧ (call_next_token T s).token_type = TOKEN_STR) := by
  rcases next_token_error T s h with ⟨hp, hu⟩ | ⟨hq, ht⟩
  · exact Or.inl ⟨hp, hu, call_unknown T s hp hu⟩
  · exact Or.inr ⟨hq, ht⟩

/-! ### The paths through the parser -/

theorem cmd_cases (T : target_t) (s : state_t) :
    (cmd T s).1 = -1 ∨
    (s.token_type = TOKEN_LETTER ∧
      (call_next_token T { s with cmd_name0 := s.token_value.letter }).token_type
        = TOKEN_LETTER ∧
      cmd T s = (0, call_next_token T
        { call_next_token T { s with cmd_name0 := s.token_value.letter } with
          cmd_name1 :=
            (call_next_token T { s with cmd_name0 := s.token_value.letter }).token_value.letter
        })) := by
  by_cases h1 : s.token_type = TOKEN_LETTER
  · by_cases h2 : (call_next_token T { s with cmd_name0 := s.token_value.letter }).token_type
        = TOKEN_LETTER
    · right
      exact ⟨h1, h2, by simp only [cmd, if_pos h1, if_pos h2]⟩
    · left
      simp only [cmd, if_pos h1, if_neg h2]
  · left
    simp only [cmd, if_neg h1]

theorem param_cases (T : target_t) (p : param_ref) (s : state_t) :
    (param T p s).1 = -1 ∨
    (is_param_type s.token_type ∧
      param T p s = (0, call_next_token T
        (p.store s { present := true, type := s.token_type, value := s.token_value }))) := by
  by_cases h : s.token_type ≠ TOKEN_INT ∧ s.token_type ≠ TOKEN_DEC ∧
      s.token_type ≠ TOKEN_LETTER ∧ s.token_type ≠ TOKEN_STR
  · left
    simp only [param, if_pos h]
  · right
    refine ⟨?_, by simp only [param, if_neg h]⟩
    unfold is_param_type
    by_contra hc
    exact h ⟨fun e => hc (Or.inl e), fun e => hc (Or.inr (Or.inl e)),
      fun e => hc (Or.inr (Or.inr (Or.inl e))), fun e => hc (Or.inr (Or.inr (Or.inr e)))⟩

theorem instr_cases (T : target_t) (s : state_t) :
    (instr T s).1 = -1 ∨
    ∃ c3, cmd T s = (0, c3) ∧
      ((c3.token_type = TOKEN_CMDEND ∧ instr T s = (0, c3)) ∨
       (c3.token_type = TOKEN_COMMA ∧
        ∃ c5, param T param_ref.param1 (call_next_token T c3) = (0, c5) ∧
          ((c5.token_type = TOKEN_CMDEND ∧ instr T s = (0, c5)) ∨
           (c5.token_type = TOKEN_COMMA ∧
            ∃ c7, param T param_ref.param2 (call_next_token T c5) = (0, c7) ∧
              instr T s = (0, c7))))) := by
  simp only [instr]
  have hr := cmd_cases T s
  generalize cmd T s = r at hr ⊢
  obtain ⟨r1, c3⟩ := r
  have hr1 : r1 = -1 ∨ r1 = 0 := by
    rcases hr with h | ⟨-, -, h⟩
    · exact Or.inl h
    · exact Or.inr (congrArg Prod.fst h)
  clear hr
  rcases hr1 with rfl | rfl
  · left
    simp
  · simp only [gt_iff_lt, Int.reduceNeg, Int.reduceLT, if_true]
    by_cases e3 : c3.token_type = TOKEN_CMDEND
    · right
      exact ⟨c3, rfl, Or.inl ⟨e3, by simp [e3]⟩⟩
    · by_cases k3 : c3.token_type = TOKEN_COMMA
      · simp only [if_neg e3, if_pos k3]
        have hp := param_cases T param_ref.param1 (call_next_token T c3)
        generalize hpe : param T param_ref.param1 (call_next_token T c3) = p at hp ⊢
        obtain ⟨p1, c5⟩ := p
        have hp1 : p1 = -1 ∨ p1 = 0 := by
          rcases hp with h | ⟨-, h⟩
          · exact Or.inl h
          · exact Or.inr (congrArg Prod.fst h)
        clear hp
        rcases hp1 with rfl | rfl
        · left
          simp
        · simp only [Int.reduceNeg, Int.reduceLT, if_true]
          by_cases e5 : c5.token_type = TOKEN_CMDEND
          · right
            exact ⟨c3, rfl, Or.inr ⟨k3, c5, hpe, Or.inl ⟨e5, by simp [e5]⟩⟩⟩
          · by_cases k5 : c5.token_type = TOKEN_COMMA
            · simp only [if_neg e5, if_pos k5]
              have hq := param_cases T param_ref.param2 (call_next_token T c5)
              generalize hqe : param T param_ref.param2 (call_next_token T c5) = q at hq ⊢
              obtain ⟨q1, c7⟩ := q
              have hq1 : q1 = -1 ∨ q1 = 0 := by
                rcases hq with h | ⟨-, h⟩
                · exact Or.inl h
                · exact Or.inr (congrArg Prod.fst h)
              clear hq
              rcases hq1 with rfl | rfl
              · left
                rfl
              · right
                exact ⟨c3, rfl, Or.inr ⟨k3, c5, hpe, Or.inr ⟨k5, c7, hqe, rfl⟩⟩⟩
            · left
              simp [e5, k5]
      · left
        simp [e3, k3]

theorem call_post (T : target_t) (x : state_t) :
    (call_next_token T x).cmd_buf = x.cmd_buf ∧
    (call_next_token T x).lex_log = x.lex_log ++ [(x.cmd_buf_pos, (next_token T x).1)] ∧
    ((next_token T x).1 = -1 →
      (x.cmd_buf_pos < CMD_BUF_SIZE ∧ unknown_char T x.cmd_buf x.cmd_buf_pos) ∨
      (x.cmd_buf x.cmd_buf_pos = 34 ∧ (call_next_token T x).token_type = TOKEN_STR)) ∧
    (x.cmd_buf_pos < CMD_BUF_SIZE → unknown_char T x.cmd_buf x.cmd_buf_pos →
      (call_next_token T x).token_type = x.token_type ∧
      (call_next_token T x).cmd_buf_pos = x.cmd_buf_pos) :=
  ⟨call_cmd_buf T x, call_lex_log T x, next_token_error T x, call_unknown T x⟩

theorem store_fields (p : param_ref) (c : state_t) (v : param_t) :
    (p.store c v).cmd_buf = c.cmd_buf ∧ (p.store c v).cmd_buf_pos = c.cmd_buf_pos ∧
    (p.store c v).token_type = c.token_type ∧ (p.store c v).lex_log = c.lex_log := by
  cases p <;> exact ⟨rfl, rfl, rfl, rfl⟩

theorem token_types_differ :
    TOKEN_LETTER ≠ TOKEN_CMDEND ∧ TOKEN_LETTER ≠ TOKEN_COMMA ∧ TOKEN_STR ≠ TOKEN_LETTER ∧
    TOKEN_STR ≠ TOKEN_CMDEND ∧ TOKEN_STR ≠ TOKEN_COMMA ∧ ¬ is_param_type TOKEN_COMMA ∧
    ¬ is_param_type TOKEN_CMDEND := by
  unfold is_param_type
  decide

theorem instr_error_fails (T : target_t) (c0 : state_t) (hlog : c0.lex_log = []) (k pos : Nat)
    (hk : (instr T (call_next_token T c0)).2.lex_log[k]? = some (pos, -1))
    (hcase : k = 0 ∨ k = 1 ∨ k = 2 ∨ k = 4 ∨ ((k = 3 ∨ k = 5) ∧ c0.cmd_buf pos ≠ 34)) :
    (instr T (call_next_token T c0)).1 = -1 := by
  obtain ⟨d1, d2, d3, d4, d5, d6, d7⟩ := token_types_differ
  rcases instr_cases T (call_next_token T c0) with h | ⟨c3, hcmd, hrest⟩
  · exact h
  exfalso
  obtain ⟨b1, l1, e1, u1⟩ := call_post T c0
  generalize (next_token T c0).1 = n0 at *
  generalize call_next_token T c0 = c1 at *
  rcases cmd_cases T c1 with h | ⟨t1, t2, hc3⟩
  · rw [hcmd] at h
    simp at h
  obtain ⟨b2, l2, e2, u2⟩ := call_post T { c1 with cmd_name0 := c1.token_value.letter }
  simp only at b2 l2 e2 u2
  generalize (next_token T { c1 with cmd_name0 := c1.token_value.letter }).1 = n1 at *
  generalize call_next_token T { c1 with cmd_name0 := c1.token_value.letter } = c2 at *
  rw [hcmd] at hc3
  obtain ⟨b3, l3, e3, u3⟩ := call_post T { c2 with cmd_name1 := c2.token_value.letter }
  simp only at b3 l3 e3 u3
  rw [← (Prod.mk.inj hc3).2] at b3 l3 e3 u3
  generalize (next_token T { c2 with cmd_name1 := c2.token_value.letter }).1 = n2 at *
  clear hc3 hcmd
  have t3 : c3.token_type = TOKEN_CMDEND ∨ c3.token_type = TOKEN_COMMA := by
    rcases hrest with ⟨h, -⟩ | ⟨h, -⟩
    · exact Or.inl h
    · exact Or.inr h
  have t3n : c3.token_type ≠ TOKEN_LETTER ∧ c3.token_type ≠ TOKEN_STR := by
    rcases t3 with h | h <;> rw [h]
    · exact ⟨d1.symm, d4.symm⟩
    · exact ⟨d2.symm, d5.symm⟩
  have z2 : n2 ≠ -1 := by
    intro h
    rcases e3 h with ⟨hp, hu⟩ | ⟨-, hs⟩
    · have := (u3 hp hu).1
      rw [t2] at this
      exact t3n.1 this
    · exact t3n.2 hs
  have z1 : n1 ≠ -1 := by
    intro h
    rcases e2 h with ⟨hp, hu⟩ | ⟨-, hs⟩
    · obtain ⟨-, hpos⟩ := u2 hp hu
      have := (u3 (by rw [hpos]; exact hp) (by rw [b2, hpos]; exact hu)).1
      rw [t2] at this
      exact t3n.1 this
    · rw [t2] at hs
      exact d3 hs.symm
  have z0 : n0 ≠ -1 := by
    intro h
    rcases e1 h with ⟨hp, hu⟩ | ⟨-, hs⟩
    · obtain ⟨-, hpos1⟩ := u1 hp hu
      have hu1 : unknown_char T c1.cmd_buf c1.cmd_buf_pos := by rw [b1, hpos1]; exact hu
      have hp1 : c1.cmd_buf_pos < CMD_BUF_SIZE := by rw [hpos1]; exact hp
      obtain ⟨-, hpos2⟩ := u2 hp1 hu1
      have := (u3 (by rw [hpos2]; exact hp1) (by rw [b2, hpos2]; exact hu1)).1
      rw [t2] at this
      exact t3n.1 this
    · rw [t1] at hs
      exact d3 hs.symm
  have hl3 : c3.lex_log = [(c0.cmd_buf_pos, n0), (c1.cmd_buf_pos, n1), (c2.cmd_buf_pos, n2)] := by
    rw [l3, l2, l1, hlog]
    rfl
  clear e1 e2 e3 u1 u2 u3 l1 l2 l3 t1 t2 t3n
  rcases hrest with ⟨-, hi⟩ | ⟨k3, c5, hp, hrest5⟩
  · rw [hi] at hk
    simp only [hl3] at hk
    rcases hcase with rfl | rfl | rfl | rfl | ⟨rfl | rfl, -⟩ <;> simp at hk
    · exact z0 hk.2
    · exact z1 hk.2
    · exact z2 hk.2
  obtain ⟨b4, l4, e4, u4⟩ := call_post T c3
  generalize (next_token T c3).1 = n3 at *
  generalize call_next_token T c3 = c4 at *
  rcases param_cases T param_ref.param1 c4 with h | ⟨t4, hc5⟩
  · rw [hp] at h
    simp at h
  rw [hp] at hc5
  obtain ⟨b5, l5, e5, u5⟩ := call_post T
    (param_ref.param1.store c4 { present := true, type := c4.token_type, value := c4.token_value })
  simp only [(store_fields _ _ _).1, (store_fields _ _ _).2.1, (store_fields _ _ _).2.2.1,
    (store_fields _ _ _).2.2.2] at b5 l5 e5 u5
  rw [← (Prod.mk.inj hc5).2] at b5 l5 e5 u5
  generalize (next_token T (param_ref.param1.store c4
    { present := true, type := c4.token_type, value := c4.token_value })).1 = n4 at *
  clear hc5 hp
  have z3 : n3 = -1 → c3.cmd_buf c3.cmd_buf_pos = 34 := by
    intro h
    rcases e4 h with ⟨hp, hu⟩ | ⟨hq, -⟩
    · have := (u4 hp hu).1
      rw [k3] at this
      rw [this] at t4
      exact absurd t4 d6
    · exact hq
  have t5 : c5.token_type = TOKEN_CMDEND ∨ c5.token_type = TOKEN_COMMA := by
    rcases hrest5 with ⟨h, -⟩ | ⟨h, -⟩
    · exact Or.inl h
    · exact Or.inr h
  have z4 : n4 ≠ -1 := by
    intro h
    rcases e5 h with ⟨hp, hu⟩ | ⟨-, hs⟩
    · have := (u5 hp hu).1
      rw [← this] at t4
      rcases t5 with h5 | h5 <;> rw [h5] at t4
      · exact d7 t4
      · exact d6 t4
    · rcases t5 with h5 | h5 <;> rw [h5] at hs
      · exact d4 hs.symm
      · exact d5 hs.symm
  have hl5 : c5.lex_log = [(c0.cmd_buf_pos, n0), (c1.cmd_buf_pos, n1), (c2.cmd_buf_pos, n2),
      (c3.cmd_buf_pos, n3), (c4.cmd_buf_pos, n4)] := by
    rw [l5, l4, hl3]
    rfl
  have hb3 : c3.cmd_buf = c0.cmd_buf := by rw [b3, b2, b1]
  clear e4 e5 u4 u5 l4 l5 hl3 t4 t5 t3
  rcases hrest5 with ⟨-, hi⟩ | ⟨k5, c7, hq, hi⟩
  · rw [hi] at hk
    simp only [hl5] at hk
    rcases hcase with rfl | rfl | rfl | rfl | ⟨rfl | rfl, hne⟩ <;> simp at hk
    · exact z0 hk.2
    · exact z1 hk.2
    · exact z2 hk.2
    · exact z4 hk.2
    · have := z3 hk.2
      rw [hb3, hk.1] at this
      exact hne this
  obtain ⟨b6, l6, e6, u6⟩ := call_post T c5
  generalize (next_token T c5).1 = n5 at *
  generalize call_next_token T c5 = c6 at *
  rcases param_cases T param_ref.param2 c6 with h | ⟨t6, hc7⟩
  · rw [hq] at h
    simp at h
  rw [hq] at hc7
  obtain ⟨-, l7, -, -⟩ := call_post T
    (param_ref.param2.store c6 { present := true, type := c6.token_type, value := c6.token_value })
  simp only [(store_fields _ _ _).1, (store_fields _ _ _).2.1, (store_fields _ _ _).2.2.1,
    (store_fields _ _ _).2.2.2] at l7
  rw [← (Prod.mk.inj hc7).2] at l7
  generalize (next_token T (param_ref.param2.store c6
    { present := true, type := c6.token_type, value := c6.token_value })).1 = n6 at *
  have z5 : n5 = -1 → c5.cmd_buf c5.cmd_buf_pos = 34 := by
    intro h
    rcases e6 h with ⟨hp, hu⟩ | ⟨hq, -⟩
    · have := (u6 hp hu).1
      rw [k5] at this
      rw [this] at t6
      exact absurd t6 d6
    · exact hq
  have hl7 : c7.lex_log = [(c0.cmd_buf_pos, n0), (c1.cmd_buf_pos, n1), (c2.cmd_buf_pos, n2),
      (c3.cmd_buf_pos, n3), (c4.cmd_buf_pos, n4), (c5.cmd_buf_pos, n5),
      (c6.cmd_buf_pos, n6)] := by
    rw [l7, l6, hl5]
    rfl
  have hb5 : c5.cmd_buf = c0.cmd_buf := by rw [b5, b4, hb3]
  rw [hi] at hk
  simp only [hl7] at hk
  rcases hcase with rfl | rfl | rfl | rfl | ⟨rfl | rfl, hne⟩ <;> simp at hk
  · exact z0 hk.2
  · exact z1 hk.2
  · exact z2 hk.2
  · exact z4 hk.2
  · have := z3 hk.2
    rw [hb3, hk.1] at this
    exact hne this
  · have := z5 hk.2
    rw [hb5, hk.1] at this
    exact hne this

theorem cycle_state (T : target_t) (received : Nat → Nat) (s : state_t) :
    (cycle T received s).2 = (instr T (call_next_token T (next_cmd received s))).2 ∧
    ((cycle T received s).1 = branch_t.syntax_error ↔
      (instr T (call_next_token T (next_cmd received s))).1 < 0) ∧
    ((cycle T received s).1 = branch_t.instruction ↔
      ¬ (instr T (call_next_token T (next_cmd received s))).1 < 0) := by
  simp only [cycle, parse_cmd, prog, interpret_cmd]
  split_ifs with h1 h2
  · exact ⟨rfl, by simp [h1], by simp [h1]⟩
  · exact absurd (by decide : ((-1 : Int) < 0)) h2
  · exact ⟨rfl, by simp [h1], by simp [h1]⟩

/-! ### Where the cursor can go -/

theorem int_digits_loop_bounds (T : target_t) (buf : Nat → Nat) :
    ∀ (fuel pos : Nat) (acc : Int), pos ≤ (int_digits_loop T buf fuel pos acc).1 ∧
      (pos ≤ CMD_BUF_SIZE → (int_digits_loop T buf fuel pos acc).1 ≤ CMD_BUF_SIZE) := by
  intro fuel
  induction fuel with
  | zero => intro pos acc; exact ⟨le_refl _, fun h => h⟩
  | succ n ih =>
    intro pos acc
    rw [int_digits_loop]
    split_ifs with h
    · obtain ⟨h1, h2⟩ := ih (pos + 1) (int_wrap T (acc * 10 + ((buf pos : Int) - 48)))
      exact ⟨by omega, fun _ => h2 (by omega)⟩
    · exact ⟨le_refl _, fun h => h⟩

theorem dec_digits_loop_bounds (T : target_t) (buf : Nat → Nat) :
    ∀ (fuel pos k : Nat) (acc : Int), pos ≤ (dec_digits_loop T buf fuel pos k acc).1 ∧
      (pos ≤ CMD_BUF_SIZE → (dec_digits_loop T buf fuel pos k acc).1 ≤ CMD_BUF_SIZE) := by
  intro fuel
  induction fuel with
  | zero => intro pos k acc; exact ⟨le_refl _, fun h => h⟩
  | succ n ih =>
    intro pos k acc
    rw [dec_digits_loop]
    split_ifs with h
    · obtain ⟨h1, h2⟩ := ih (pos + 1) (k + 1) (int_wrap T (acc * 10 + ((buf pos : Int) - 48)))
      exact ⟨by omega, fun _ => h2 (by omega)⟩
    · exact ⟨le_refl _, fun h => h⟩

theorem str_loop_bounds (T : target_t) (buf : Nat → Nat) :
    ∀ (fuel pos len : Nat) (charv : Nat → Nat),
      pos ≤ (str_loop T buf fuel pos len charv).1 ∧
      (pos ≤ CMD_BUF_SIZE → (str_loop T buf fuel pos len charv).1 ≤ CMD_BUF_SIZE) := by
  intro fuel
  induction fuel with
  | zero => intro pos len charv; exact ⟨le_refl _, fun h => h⟩
  | succ n ih =>
    intro pos len charv
    rw [str_loop]
    split_ifs with h
    · obtain ⟨h1, h2⟩ := ih (pos + 1) (len + 1) (Function.update charv len (buf pos))
      exact ⟨by omega, fun _ => h2 (by omega)⟩
    · exact ⟨le_refl _, fun h => h⟩

/-! ### The branches of the lexer, as they are written -/

theorem tok_number_raw (T : target_t) (s : state_t) (hp : s.cmd_buf_pos < CMD_BUF_SIZE)
    (hl : ¬ is_letter (s.cmd_buf s.cmd_buf_pos)) (h3 : s.cmd_buf s.cmd_buf_pos ≠ 44)
    (h4 : s.cmd_buf s.cmd_buf_pos = 45 ∨ is_digit (s.cmd_buf s.cmd_buf_pos)) :
    next_token T s =
      if (int_digits_loop T s.cmd_buf (CMD_BUF_SIZE - (s.cmd_buf_pos + 1))
            (s.cmd_buf_pos + 1) 0).1 < CMD_BUF_SIZE ∧
          s.cmd_buf (int_digits_loop T s.cmd_buf (CMD_BUF_SIZE - (s.cmd_buf_pos + 1))
            (s.cmd_buf_pos + 1) 0).1 = 46 then
        (0, { s with
              token_type := TOKEN_DEC
              token_value := { s.token_value with
                sign := int_wrap T ((if s.cmd_buf s.cmd_buf_pos = 45 then -1 else 1) *
                  (int_digits_loop T s.cmd_buf (CMD_BUF_SIZE - (s.cmd_buf_pos + 1))
                    (s.cmd_buf_pos + 1) 0).2)
                abs_value := (dec_digits_loop T s.cmd_buf
                  (CMD_BUF_SIZE - ((int_digits_loop T s.cmd_buf
                    (CMD_BUF_SIZE - (s.cmd_buf_pos + 1)) (s.cmd_buf_pos + 1) 0).1 + 1))
                  ((int_digits_loop T s.cmd_buf (CMD_BUF_SIZE - (s.cmd_buf_pos + 1))
                    (s.cmd_buf_pos + 1) 0).1 + 1) 0
                  (int_digits_loop T s.cmd_buf (CMD_BUF_SIZE - (s.cmd_buf_pos + 1))
                    (s.cmd_buf_pos + 1) 0).2).2 }
              cmd_buf_pos := (dec_digits_loop T s.cmd_buf
                  (CMD_BUF_SIZE - ((int_digits_loop T s.cmd_buf
                    (CMD_BUF_SIZE - (s.cmd_buf_pos + 1)) (s.cmd_buf_pos + 1) 0).1 + 1))
                  ((int_digits_loop T s.cmd_buf (CMD_BUF_SIZE - (s.cmd_buf_pos + 1))
                    (s.cmd_buf_pos + 1) 0).1 + 1) 0
                  (int_digits_loop T s.cmd_buf (CMD_BUF_SIZE - (s.cmd_buf_pos + 1))
                    (s.cmd_buf_pos + 1) 0).2).1 })
      else
        (0, { s with
              token_type := TOKEN_INT
              token_value := { s.token_value with
                sign := if s.cmd_buf s.cmd_buf_pos = 45 then -1 else 1
                abs_value := (int_digits_loop T s.cmd_buf (CMD_BUF_SIZE - (s.cmd_buf_pos + 1))
                  (s.cmd_buf_pos + 1) 0).2 }
              cmd_buf_pos := (int_digits_loop T s.cmd_buf (CMD_BUF_SIZE - (s.cmd_buf_pos + 1))
                  (s.cmd_buf_pos + 1) 0).1 }) := by
  have h1 : ¬ (65 ≤ s.cmd_buf s.cmd_buf_pos ∧ s.cmd_buf s.cmd_buf_pos ≤ 90) :=
    fun h => hl (Or.inl h)
  have h2 : ¬ (97 ≤ s.cmd_buf s.cmd_buf_pos ∧ s.cmd_buf s.cmd_buf_pos ≤ 122) :=
    fun h => hl (Or.inr h)
  have h4b : s.cmd_buf s.cmd_buf_pos = 45 ∨
      (48 ≤ s.cmd_buf s.cmd_buf_pos ∧ s.cmd_buf s.cmd_buf_pos ≤ 57) := h4
  simp only [next_token, if_pos hp, if_neg h1, if_neg h2, if_neg h3, if_pos h4b]

theorem tok_quote_raw (T : target_t) (s : state_t) (hp : s.cmd_buf_pos < CMD_BUF_SIZE)
    (h5 : s.cmd_buf s.cmd_buf_pos = 34) :
    next_token T s =
      (if (str_loop T s.cmd_buf (CMD_BUF_SIZE - (s.cmd_buf_pos + 1)) (s.cmd_buf_pos + 1) 0
              s.token_value.charv).1 ≥ CMD_BUF_SIZE ∨
            s.cmd_buf (str_loop T s.cmd_buf (CMD_BUF_SIZE - (s.cmd_buf_pos + 1))
              (s.cmd_buf_pos + 1) 0 s.token_value.charv).1 = T.CMDEND then -1 else 0,
       { s with
         token_type := TOKEN_STR
         token_value := { s.token_value with
           charv := (str_loop T s.cmd_buf (CMD_BUF_SIZE - (s.cmd_buf_pos + 1))
             (s.cmd_buf_pos + 1) 0 s.token_value.charv).2.2
           length := (str_loop T s.cmd_buf (CMD_BUF_SIZE - (s.cmd_buf_pos + 1))
             (s.cmd_buf_pos + 1) 0 s.token_value.charv).2.1 }
         cmd_buf_pos := (str_loop T s.cmd_buf (CMD_BUF_SIZE - (s.cmd_buf_pos + 1))
             (s.cmd_buf_pos + 1) 0 s.token_value.charv).1 + 1 }) := by
  have h1 : ¬ (65 ≤ s.cmd_buf s.cmd_buf_pos ∧ s.cmd_buf s.cmd_buf_pos ≤ 90) := by omega
  have h2 : ¬ (97 ≤ s.cmd_buf s.cmd_buf_pos ∧ s.cmd_buf s.cmd_buf_pos ≤ 122) := by omega
  have h3 : ¬ s.cmd_buf s.cmd_buf_pos = 44 := by omega
  have h4 : ¬ (s.cmd_buf s.cmd_buf_pos = 45 ∨
      (48 ≤ s.cmd_buf s.cmd_buf_pos ∧ s.cmd_buf s.cmd_buf_pos ≤ 57)) := by omega
  simp only [next_token, if_pos hp, if_neg h1, if_neg h2, if_neg h3, if_neg h4, if_pos h5]

theorem tok_cmdend_raw (T : target_t) (s : state_t) (hp : s.cmd_buf_pos < CMD_BUF_SIZE)
    (hl : ¬ is_letter (s.cmd_buf s.cmd_buf_pos)) (h3 : s.cmd_buf s.cmd_buf_pos ≠ 44)
    (h4 : ¬ (s.cmd_buf s.cmd_buf_pos = 45 ∨ is_digit (s.cmd_buf s.cmd_buf_pos)))
    (h5 : s.cmd_buf s.cmd_buf_pos ≠ 34) (h6 : s.cmd_buf s.cmd_buf_pos = T.CMDEND) :
    next_token T s =
      (0, { s with token_type := TOKEN_CMDEND, cmd_buf_pos := s.cmd_buf_pos + 1 }) := by
  have h1 : ¬ (65 ≤ s.cmd_buf s.cmd_buf_pos ∧ s.cmd_buf s.cmd_buf_pos ≤ 90) :=
    fun h => hl (Or.inl h)
  have h2 : ¬ (97 ≤ s.cmd_buf s.cmd_buf_pos ∧ s.cmd_buf s.cmd_buf_pos ≤ 122) :=
    fun h => hl (Or.inr h)
  have h4b : ¬ (s.cmd_buf s.cmd_buf_pos = 45 ∨
      (48 ≤ s.cmd_buf s.cmd_buf_pos ∧ s.cmd_buf s.cmd_buf_pos ≤ 57)) := h4
  simp only [next_token, if_pos hp, if_neg h1, if_neg h2, if_neg h3, if_neg h4b, if_neg h5,
    if_pos h6]

/-- The six things a call of `next_token` can do. -/
theorem next_token_kinds (T : target_t) (s : state_t) :
    (¬ s.cmd_buf_pos < CMD_BUF_SIZE ∧ next_token T s = (0, s)) ∨
    (s.cmd_buf_pos < CMD_BUF_SIZE ∧ unknown_char T s.cmd_buf s.cmd_buf_pos ∧
      next_token T s = (-1, s)) ∨
    (s.cmd_buf_pos < CMD_BUF_SIZE ∧ is_letter (s.cmd_buf s.cmd_buf_pos) ∧
      next_token T s =
        (0, { s with token_type := TOKEN_LETTER
                     token_value := { s.token_value with
                                      letter := to_upper (s.cmd_buf s.cmd_buf_pos) }
                     cmd_buf_pos := s.cmd_buf_pos + 1 })) ∨
    (s.cmd_buf_pos < CMD_BUF_SIZE ∧ ¬ is_letter (s.cmd_buf s.cmd_buf_pos) ∧
      (next_token T s).1 = 0 ∧
      ((next_token T s).2.token_type = TOKEN_COMMA ∨ (next_token T s).2.token_type = TOKEN_INT ∨
        (next_token T s).2.token_type = TOKEN_DEC ∨
        (next_token T s).2.token_type = TOKEN_CMDEND) ∧
      s.cmd_buf_pos + 1 ≤ (next_token T s).2.cmd_buf_pos ∧
      (next_token T s).2.cmd_buf_pos ≤ CMD_BUF_SIZE) ∨
    (s.cmd_buf_pos < CMD_BUF_SIZE ∧ s.cmd_buf s.cmd_buf_pos = 34 ∧
      (next_token T s).2.token_type = TOKEN_STR ∧
      s.cmd_buf_pos + 2 ≤ (next_token T s).2.cmd_buf_pos ∧
      (next_token T s).2.cmd_buf_pos ≤ CMD_BUF_SIZE + 1 ∧
      (((next_token T s).1 = 0 ∧ (next_token T s).2.cmd_buf_pos ≤ CMD_BUF_SIZE) ∨
        (next_token T s).1 = -1)) := by
  by_cases hp : s.cmd_buf_pos < CMD_BUF_SIZE
  swap
  · exact Or.inl ⟨hp, tok_past_end T s hp⟩
  right
  by_cases hl : is_letter (s.cmd_buf s.cmd_buf_pos)
  · exact Or.inr (Or.inl ⟨hp, hl, tok_letter T s hp hl⟩)
  by_cases h3 : s.cmd_buf s.cmd_buf_pos = 44
  · refine Or.inr (Or.inr (Or.inl ⟨hp, hl, ?_⟩))
    rw [tok_comma T s hp h3]
    exact ⟨rfl, Or.inl rfl, le_refl _, hp⟩
  by_cases h4 : s.cmd_buf s.cmd_buf_pos = 45 ∨ is_digit (s.cmd_buf s.cmd_buf_pos)
  · refine Or.inr (Or.inr (Or.inl ⟨hp, hl, ?_⟩))
    obtain ⟨b1, b2⟩ := int_digits_loop_bounds T s.cmd_buf (CMD_BUF_SIZE - (s.cmd_buf_pos + 1))
      (s.cmd_buf_pos + 1) 0
    by_cases hdot : (int_digits_loop T s.cmd_buf (CMD_BUF_SIZE - (s.cmd_buf_pos + 1))
        (s.cmd_buf_pos + 1) 0).1 < CMD_BUF_SIZE ∧
        s.cmd_buf (int_digits_loop T s.cmd_buf (CMD_BUF_SIZE - (s.cmd_buf_pos + 1))
          (s.cmd_buf_pos + 1) 0).1 = 46
    · obtain ⟨d1, d2⟩ := dec_digits_loop_bounds T s.cmd_buf
        (CMD_BUF_SIZE - ((int_digits_loop T s.cmd_buf (CMD_BUF_SIZE - (s.cmd_buf_pos + 1))
          (s.cmd_buf_pos + 1) 0).1 + 1))
        ((int_digits_loop T s.cmd_buf (CMD_BUF_SIZE - (s.cmd_buf_pos + 1))
          (s.cmd_buf_pos + 1) 0).1 + 1) 0
        (int_digits_loop T s.cmd_buf (CMD_BUF_SIZE - (s.cmd_buf_pos + 1))
          (s.cmd_buf_pos + 1) 0).2
      rw [tok_number_raw T s hp hl h3 h4, if_pos hdot]
      exact ⟨rfl, Or.inr (Or.inr (Or.inl rfl)), by simp only; omega,
        by simp only; exact d2 (by omega)⟩
    · rw [tok_number_raw T s hp hl h3 h4, if_neg hdot]
      exact ⟨rfl, Or.inr (Or.inl rfl), by simp only; omega, by simp only; exact b2 (by omega)⟩
  by_cases h5 : s.cmd_buf s.cmd_buf_pos = 34
  · refine Or.inr (Or.inr (Or.inr ⟨hp, h5, ?_⟩))
    obtain ⟨b1, b2⟩ := str_loop_bounds T s.cmd_buf (CMD_BUF_SIZE - (s.cmd_buf_pos + 1))
      (s.cmd_buf_pos + 1) 0 s.token_value.charv
    rw [tok_quote_raw T s hp h5]
    refine ⟨rfl, by simp only; omega, by simp only; have := b2 (by omega); omega, ?_⟩
    by_cases he : (str_loop T s.cmd_buf (CMD_BUF_SIZE - (s.cmd_buf_pos + 1))
        (s.cmd_buf_pos + 1) 0 s.token_value.charv).1 ≥ CMD_BUF_SIZE ∨
        s.cmd_buf (str_loop T s.cmd_buf (CMD_BUF_SIZE - (s.cmd_buf_pos + 1))
          (s.cmd_buf_pos + 1) 0 s.token_value.charv).1 = T.CMDEND
    · exact Or.inr (by simp only [if_pos he])
    · have : ¬ (CMD_BUF_SIZE ≤ (str_loop T s.cmd_buf (CMD_BUF_SIZE - (s.cmd_buf_pos + 1))
          (s.cmd_buf_pos + 1) 0 s.token_value.charv).1) := fun h => he (Or.inl h)
      exact Or.inl ⟨by simp only [if_neg he], by simp only; omega⟩
  by_cases h6 : s.cmd_buf s.cmd_buf_pos = T.CMDEND
  · refine Or.inr (Or.inr (Or.inl ⟨hp, hl, ?_⟩))
    rw [tok_cmdend_raw T s hp hl h3 h4 h5 h6]
    exact ⟨rfl, Or.inr (Or.inr (Or.inr rfl)), le_refl _, hp⟩
  · have hu : unknown_char T s.cmd_buf s.cmd_buf_pos :=
      ⟨hl, fun h => h4 (Or.inr h), h3, fun h => h4 (Or.inl h), h5, h6⟩
    exact Or.inl ⟨hp, hu, tok_unknown T s hp hu⟩

/-! ### Calls in a row -/

theorem lex_calls_stuck (T : target_t) (s : state_t) (h : (next_token T s).2 = s) :
    ∀ n, lex_calls T n s = s := by
  intro n
  induction n with
  | zero => rfl
  | succ n ih => rw [lex_calls, h, ih]

theorem next_token_cursor_le (T : target_t) (s : state_t)
    (h : s.cmd_buf_pos ≤ CMD_BUF_SIZE + 1) :
    (next_token T s).2.cmd_buf_pos ≤ CMD_BUF_SIZE + 1 := by
  rcases next_token_kinds T s with ⟨-, e⟩ | ⟨-, -, e⟩ | ⟨hp, -, e⟩ | ⟨-, -, -, -, -, e⟩ |
    ⟨-, -, -, -, e, -⟩
  · rw [e]; exact h
  · rw [e]; exact h
  · rw [e]; simp only; omega
  · omega
  · exact e

theorem lex_calls_cursor_le (T : target_t) :
    ∀ (n : Nat) (s : state_t), s.cmd_buf_pos ≤ CMD_BUF_SIZE + 1 →
      (lex_calls T n s).cmd_buf_pos ≤ CMD_BUF_SIZE + 1 := by
  intro n
  induction n with
  | zero => intro s h; exact h
  | succ n ih => intro s h; exact ih _ (next_token_cursor_le T s h)

theorem lex_calls_commas (T : target_t) :
    ∀ (n : Nat) (s : state_t), (∀ i, s.cmd_buf i = 44) → s.cmd_buf_pos + n ≤ CMD_BUF_SIZE →
      (lex_calls T n s).cmd_buf_pos = s.cmd_buf_pos + n ∧
      (lex_calls T n s).cmd_buf = s.cmd_buf := by
  intro n
  induction n with
  | zero => intro s _ _; exact ⟨rfl, rfl⟩
  | succ n ih =>
    intro s hb hn
    have e := tok_comma T s (by omega) (hb _)
    obtain ⟨h1, h2⟩ := ih (next_token T s).2 (by rw [e]; exact hb) (by rw [e]; simp only; omega)
    rw [lex_calls, h1, h2, e]
    exact ⟨by simp only; omega, rfl⟩

/-! ### The checked lexer never leaves the arrays -/

theorem int_digits_loop_chk_eq (T : target_t) (buf : Nat → Nat) :
    ∀ (fuel pos : Nat) (acc : Int), CMD_BUF_SIZE - pos ≤ fuel →
      int_digits_loop_chk T buf fuel pos acc = some (int_digits_loop T buf fuel pos acc) := by
  intro fuel
  induction fuel with
  | zero =>
    intro pos acc h
    have hp : ¬ pos < CMD_BUF_SIZE := by omega
    simp only [int_digits_loop_chk, int_digits_loop, if_neg hp]
  | succ n ih =>
    intro pos acc h
    by_cases hp : pos < CMD_BUF_SIZE
    · by_cases hd : 48 ≤ buf pos ∧ buf pos ≤ 57
      · have hg : pos < CMD_BUF_SIZE ∧ 48 ≤ buf pos ∧ buf pos ≤ 57 := ⟨hp, hd⟩
        simp only [int_digits_loop_chk, int_digits_loop, read_cmd_buf, if_pos hp, if_pos hd,
          if_pos hg, Option.some_bind]
        exact ih (pos + 1) _ (by omega)
      · have hg : ¬ (pos < CMD_BUF_SIZE ∧ 48 ≤ buf pos ∧ buf pos ≤ 57) := fun h => hd h.2
        simp only [int_digits_loop_chk, int_digits_loop, read_cmd_buf, if_pos hp, if_neg hd,
          if_neg hg, Option.some_bind]
    · have hg : ¬ (pos < CMD_BUF_SIZE ∧ 48 ≤ buf pos ∧ buf pos ≤ 57) := fun h => hp h.1
      simp only [int_digits_loop_chk, int_digits_loop, if_neg hp, if_neg hg]

theorem dec_digits_loop_chk_eq (T : target_t) (buf : Nat → Nat) :
    ∀ (fuel pos k : Nat) (acc : Int), CMD_BUF_SIZE - pos ≤ fuel →
      dec_digits_loop_chk T buf fuel pos k acc =
        some (dec_digits_loop T buf fuel pos k acc) := by
  intro fuel
  induction fuel with
  | zero =>
    intro pos k acc h
    have hp : ¬ (pos < CMD_BUF_SIZE ∧ k < 2) := by omega
    simp only [dec_digits_loop_chk, dec_digits_loop, if_neg hp]
  | succ n ih =>
    intro pos k acc h
    by_cases hp : pos < CMD_BUF_SIZE ∧ k < 2
    · have hp1 : pos < CMD_BUF_SIZE := hp.1
      by_cases hd : 48 ≤ buf pos ∧ buf pos ≤ 57
      · have hg : pos < CMD_BUF_SIZE ∧ k < 2 ∧ 48 ≤ buf pos ∧ buf pos ≤ 57 :=
          ⟨hp.1, hp.2, hd⟩
        simp only [dec_digits_loop_chk, dec_digits_loop, read_cmd_buf, if_pos hp, if_pos hp1,
          if_pos hd, if_pos hg, Option.some_bind]
        exact ih (pos + 1) _ _ (by omega)
      · have hg : ¬ (pos < CMD_BUF_SIZE ∧ k < 2 ∧ 48 ≤ buf pos ∧ buf pos ≤ 57) :=
          fun h => hd h.2.2
        simp only [dec_digits_loop_chk, dec_digits_loop, read_cmd_buf, if_pos hp, if_pos hp1,
          if_neg hd, if_neg hg, Option.some_bind]
    · have hg : ¬ (pos < CMD_BUF_SIZE ∧ k < 2 ∧ 48 ≤ buf pos ∧ buf pos ≤ 57) :=
        fun h => hp ⟨h.1, h.2.1⟩
      simp only [dec_digits_loop_chk, dec_digits_loop, if_neg hp, if_neg hg]

theorem str_loop_chk_eq (T : target_t) (buf : Nat → Nat) :
    ∀ (fuel pos len : Nat) (charv : Nat → Nat), CMD_BUF_SIZE - pos ≤ fuel →
      str_loop_chk T buf fuel pos len charv = some (str_loop T buf fuel pos len charv) := by
  intro fuel
  induction fuel with
  | zero =>
    intro pos len charv h
    have hp : ¬ pos < CMD_BUF_SIZE := by omega
    simp only [str_loop_chk, str_loop, if_neg hp]
  | succ n ih =>
    intro pos len charv h
    by_cases hp : pos < CMD_BUF_SIZE
    · by_cases hd : buf pos ≠ 34 ∧ buf pos ≠ T.CMDEND ∧ len < MAX_STR_LENGTH
      · have hg : pos < CMD_BUF_SIZE ∧ buf pos ≠ 34 ∧ buf pos ≠ T.CMDEND ∧
            len < MAX_STR_LENGTH := ⟨hp, hd⟩
        have hw : len < MAX_STR_LENGTH := hd.2.2
        simp only [str_loop_chk, str_loop, read_cmd_buf, write_charv, if_pos hp, if_pos hd,
          if_pos hg, if_pos hw, Option.some_bind]
        exact ih (pos + 1) _ _ (by omega)
      · have hg : ¬ (pos < CMD_BUF_SIZE ∧ buf pos ≠ 34 ∧ buf pos ≠ T.CMDEND ∧
            len < MAX_STR_LENGTH) := fun h => hd h.2
        simp only [str_loop_chk, str_loop, read_cmd_buf, if_pos hp, if_neg hd,
          if_neg hg, Option.some_bind]
    · have hg : ¬ (pos < CMD_BUF_SIZE ∧ buf pos ≠ 34 ∧ buf pos ≠ T.CMDEND ∧
          len < MAX_STR_LENGTH) := fun h => hp h.1
      simp only [str_loop_chk, str_loop, if_neg hp, if_neg hg]

/-! ### Decimals whose integer digits are zeros -/

theorem int_wrap_zero (T : target_t) : int_wrap T 0 = 0 := by
  unfold int_wrap
  rw [Int.emod_eq_of_lt] <;> omega

theorem int_digits_loop_zeros (T : target_t) (buf : Nat → Nat) :
    ∀ (m fuel pos : Nat), (∀ j, j < m → buf (pos + j) = 48) → pos + m ≤ CMD_BUF_SIZE →
      m ≤ fuel →
      int_digits_loop T buf fuel pos 0 = int_digits_loop T buf (fuel - m) (pos + m) 0 := by
  intro m
  induction m with
  | zero => intro fuel pos _ _ _; rfl
  | succ m ih =>
    intro fuel pos hz hfit hfuel
    obtain ⟨n, rfl⟩ : ∃ n, fuel = n + 1 := ⟨fuel - 1, by omega⟩
    have h0 : buf pos = 48 := by simpa using hz 0 (by omega)
    have hg : pos < CMD_BUF_SIZE ∧ 48 ≤ buf pos ∧ buf pos ≤ 57 := by omega
    have hacc : int_wrap T ((0 : Int) * 10 + (((buf pos : Nat) : Int) - 48)) = 0 := by
      rw [h0]
      simpa using int_wrap_zero T
    rw [int_digits_loop, if_pos hg, hacc,
      ih n (pos + 1) (fun j hj => by
        have := hz (j + 1) (by omega)
        simpa [Nat.add_assoc, Nat.add_comm 1 j] using this) (by omega) (by omega)]
    congr 1 <;> omega

theorem dec_digits_loop_fold (T : target_t) (buf : Nat → Nat) (fs : List Nat) :
    ∀ (fuel pos k : Nat) (acc : Int), (∀ d ∈ fs, d < 10) →
      (∀ j, j < fs.length → buf (pos + j) = 48 + fs.getD j 0) →
      pos + fs.length ≤ CMD_BUF_SIZE → fs.length ≤ fuel → k + fs.length ≤ 2 →
      dec_digits_loop T buf fuel pos k acc =
        dec_digits_loop T buf (fuel - fs.length) (pos + fs.length) (k + fs.length)
          (fs.foldl (fun a d => int_wrap T (a * 10 + (d : Int))) acc) := by
  induction fs with
  | nil => intro fuel pos k acc _ _ _ _ _; rfl
  | cons d fs ih =>
    intro fuel pos k acc hd hbuf hfit hfuel hk
    have hd0 : d < 10 := hd d (by simp)
    have hb0 : buf pos = 48 + d := by simpa using hbuf 0 (by simp)
    simp only [List.length_cons] at hfit hfuel hk
    obtain ⟨n, rfl⟩ : ∃ n, fuel = n + 1 := ⟨fuel - 1, by omega⟩
    have hguard : pos < CMD_BUF_SIZE ∧ k < 2 ∧ 48 ≤ buf pos ∧ buf pos ≤ 57 := by omega
    have hacc : int_wrap T (acc * 10 + (((buf pos : Nat) : Int) - 48)) =
        int_wrap T (acc * 10 + (d : Int)) := by
      rw [hb0]
      congr 1
      push_cast
      ring
    rw [dec_digits_loop, if_pos hguard, hacc,
      ih n (pos + 1) (k + 1) _ (fun x hx => hd x (by simp [hx]))
        (fun j hj => by
          have := hbuf (j + 1) (by simp; omega)
          simpa [Nat.add_assoc, Nat.add_comm 1 j] using this)
        (by omega) (by omega) (by omega)]
    simp only [List.length_cons, List.foldl_cons]
    congr 1 <;> omega

theorem tok_zero_decimal (T : target_t) (buf : Nat → Nat) (pos m : Nat) (fs : List Nat)
    (hfirst : buf pos = 45 ∨ is_digit (buf pos))
    (hz : ∀ j, j < m → buf (pos + 1 + j) = 48) (hdot : buf (pos + 1 + m) = 46)
    (hf : ∀ d ∈ fs, d < 10) (hflen : fs.length ≤ 2)
    (hfbuf : ∀ j, j < fs.length → buf (pos + 1 + m + 1 + j) = 48 + fs.getD j 0)
    (hfit : pos + 1 + m + 1 + fs.length ≤ CMD_BUF_SIZE)
    (hstop : fs.length < 2 → number_ends buf (pos + 1 + m + 1 + fs.length))
    (s : state_t) (hb : s.cmd_buf = buf) (hpos : s.cmd_buf_pos = pos) :
    next_token T s =
      (0, { s with token_type := TOKEN_DEC
                   token_value := { s.token_value with sign := 0, abs_value := dec_acc T fs }
                   cmd_buf_pos := pos + 1 + m + 1 + fs.length }) := by
  subst hb hpos
  have hp : s.cmd_buf_pos < CMD_BUF_SIZE := by omega
  have hl : ¬ is_letter (s.cmd_buf s.cmd_buf_pos) := by
    unfold is_letter
    unfold is_digit at hfirst
    omega
  have h3 : s.cmd_buf s.cmd_buf_pos ≠ 44 := by
    unfold is_digit at hfirst
    omega
  have hi : int_digits_loop T s.cmd_buf (CMD_BUF_SIZE - (s.cmd_buf_pos + 1))
      (s.cmd_buf_pos + 1) 0 = (s.cmd_buf_pos + 1 + m, 0) := by
    rw [int_digits_loop_zeros T s.cmd_buf m _ _ hz (by omega) (by omega)]
    apply int_digits_loop_stop
    rw [hdot]
    omega
  have hd : dec_digits_loop T s.cmd_buf (CMD_BUF_SIZE - (s.cmd_buf_pos + 1 + m + 1))
      (s.cmd_buf_pos + 1 + m + 1) 0 0 =
      (s.cmd_buf_pos + 1 + m + 1 + fs.length, dec_acc T fs) := by
    rw [dec_digits_loop_fold T s.cmd_buf fs _ _ 0 0 hf hfbuf hfit (by omega) (by omega)]
    apply dec_digits_loop_stop
    intro hg
    have hlt : fs.length < 2 := by omega
    exact hstop hlt hg.1 ⟨hg.2.2.1, hg.2.2.2⟩
  rw [tok_number_raw T s hp hl h3 hfirst, hi, if_pos ⟨by simp only; omega, hdot⟩]
  simp only [hd, mul_zero, int_wrap_zero]

/-! ### Text at an index of the buffer -/

theorem holds_at_index {buf : Nat → Nat} {pos : Nat} {text : List Nat}
    (h : holds_at buf pos text) (j : Nat) (hj : j < text.length) :
    buf (pos + j) = text.getD j 0 :=
  h.2 j hj

theorem holds_at_pre {buf : Nat → Nat} {pos : Nat} {pre mid post : List Nat}
    (h : holds_at buf pos (pre ++ mid ++ post)) (i : Nat) (hi : i < pre.length) :
    buf (pos + i) = pre.getD i 0 := by
  rw [h.2 i (by simp; omega)]
  simp [List.getD_eq_getElem?_getD, List.getElem?_append_left, hi, List.append_assoc]

theorem holds_at_mid {buf : Nat → Nat} {pos : Nat} {pre mid post : List Nat}
    (h : holds_at buf pos (pre ++ mid ++ post)) (j : Nat) (hj : j < mid.length) :
    buf (pos + pre.length + j) = mid.getD j 0 := by
  rw [Nat.add_assoc, h.2 (pre.length + j) (by simp; omega), getD_append_mid pre mid post j hj]

theorem holds_at_post {buf : Nat → Nat} {pos : Nat} {pre mid post : List Nat}
    (h : holds_at buf pos (pre ++ mid ++ post)) (k : Nat) (hk : k < post.length) :
    buf (pos + pre.length + mid.length + k) = post.getD k 0 := by
  have e : pos + pre.length + mid.length + k = pos + (pre.length + mid.length + k) := by omega
  rw [e, h.2 (pre.length + mid.length + k) (by simp; omega), getD_append_post]

theorem getD_replicate_lt (n v j : Nat) (hj : j < n) : (List.replicate n v).getD j 0 = v := by
  simp [List.getD_eq_getElem?_getD, List.getElem?_replicate, hj]

/-! ### Two runs of the lexer on the same buffer -/

theorem str_loop_rel (T : target_t) (buf : Nat → Nat) :
    ∀ (fuel pos len : Nat) (c1 c2 : Nat → Nat), (∀ i, i < len → c1 i = c2 i) →
      (str_loop T buf fuel pos len c2).1 = (str_loop T buf fuel pos len c1).1 ∧
      (str_loop T buf fuel pos len c2).2.1 = (str_loop T buf fuel pos len c1).2.1 ∧
      (∀ i, i < (str_loop T buf fuel pos len c1).2.1 →
        (str_loop T buf fuel pos len c1).2.2 i = (str_loop T buf fuel pos len c2).2.2 i) := by
  intro fuel
  induction fuel with
  | zero => intro pos len c1 c2 h; exact ⟨rfl, rfl, h⟩
  | succ n ih =>
    intro pos len c1 c2 h
    by_cases hg : pos < CMD_BUF_SIZE ∧ buf pos ≠ 34 ∧ buf pos ≠ T.CMDEND ∧
        len < MAX_STR_LENGTH
    · rw [str_loop, str_loop, if_pos hg, if_pos hg]
      apply ih
      intro i hi
      by_cases e : i = len
      · subst e
        simp only [Function.update_same]
      · rw [Function.update_noteq e, Function.update_noteq e]
        exact h i (by omega)
    · rw [str_loop, str_loop, if_neg hg, if_neg hg]
      exact ⟨rfl, rfl, h⟩

theorem next_token_frame2 (T : target_t) (s : state_t) :
    (next_token T s).2.param1 = s.param1 ∧ (next_token T s).2.param2 = s.param2 ∧
    (next_token T s).2.cmd_name0 = s.cmd_name0 ∧ (next_token T s).2.cmd_name1 = s.cmd_name1 := by
  simp only [next_token]
  split_ifs <;> exact ⟨rfl, rfl, rfl, rfl⟩

theorem token_types_distinct :
    TOKEN_LETTER ≠ TOKEN_INT ∧ TOKEN_LETTER ≠ TOKEN_DEC ∧ TOKEN_LETTER ≠ TOKEN_STR ∧
    TOKEN_COMMA ≠ TOKEN_LETTER ∧ TOKEN_COMMA ≠ TOKEN_INT ∧ TOKEN_COMMA ≠ TOKEN_DEC ∧
    TOKEN_COMMA ≠ TOKEN_STR ∧ TOKEN_CMDEND ≠ TOKEN_LETTER ∧ TOKEN_CMDEND ≠ TOKEN_INT ∧
    TOKEN_CMDEND ≠ TOKEN_DEC ∧ TOKEN_CMDEND ≠ TOKEN_STR ∧ TOKEN_INT ≠ TOKEN_STR ∧
    TOKEN_DEC ≠ TOKEN_STR ∧ TOKEN_INT ≠ TOKEN_DEC := by
  decide

/-- Two calls of the lexer on the same buffer at the same cursor return the same
value and leave the same cursor; and either the cursor is at the end of the
buffer, or it is on an unknown character (both calls then change nothing), or
the two calls make the same token. -/
theorem next_token_rel (T : target_t) (s t : state_t) (hb : t.cmd_buf = s.cmd_buf)
    (hq : t.cmd_buf_pos = s.cmd_buf_pos) :
    (next_token T t).1 = (next_token T s).1 ∧
    (next_token T t).2.cmd_buf_pos = (next_token T s).2.cmd_buf_pos ∧
    ((¬ s.cmd_buf_pos < CMD_BUF_SIZE ∧ (next_token T s).2 = s ∧ (next_token T t).2 = t) ∨
     (s.cmd_buf_pos < CMD_BUF_SIZE ∧ unknown_char T s.cmd_buf s.cmd_buf_pos ∧
       (next_token T s).2 = s ∧ (next_token T t).2 = t) ∨
     same_token (next_token T s).2.token_type (next_token T s).2.token_value
       (next_token T t).2.token_type (next_token T t).2.token_value) := by
  obtain ⟨d1, d2, d3, d4, d5, d6, d7, d8, d9, d10, d11, d12, d13, d14⟩ := token_types_distinct
  by_cases hp : s.cmd_buf_pos < CMD_BUF_SIZE
  swap
  · rw [tok_past_end T s hp, tok_past_end T t (by rw [hq]; exact hp)]
    exact ⟨rfl, hq, Or.inl ⟨hp, rfl, rfl⟩⟩
  have hpt : t.cmd_buf_pos < CMD_BUF_SIZE := by rw [hq]; exact hp
  have hc : t.cmd_buf t.cmd_buf_pos = s.cmd_buf s.cmd_buf_pos := by rw [hb, hq]
  by_cases hl : is_letter (s.cmd_buf s.cmd_buf_pos)
  · rw [tok_letter T s hp hl, tok_letter T t hpt (by rw [hc]; exact hl)]
    refine ⟨rfl, by simp only [hq], Or.inr (Or.inr ⟨rfl, fun _ => by simp only [hc], ?_, ?_⟩)⟩
    · intro h
      rcases h with h | h
      · exact absurd h d1
      · exact absurd h d2
    · intro h
      exact absurd h d3
  by_cases h3 : s.cmd_buf s.cmd_buf_pos = 44
  · rw [tok_comma T s hp h3, tok_comma T t hpt (by rw [hc]; exact h3)]
    refine ⟨rfl, by simp only [hq], Or.inr (Or.inr ⟨rfl, fun h => absurd h d4, ?_, ?_⟩)⟩
    · intro h
      rcases h with h | h
      · exact absurd h d5
      · exact absurd h d6
    · intro h
      exact absurd h d7
  by_cases h4 : s.cmd_buf s.cmd_buf_pos = 45 ∨ is_digit (s.cmd_buf s.cmd_buf_pos)
  · have et := tok_number_raw T t hpt (by rw [hc]; exact hl) (by rw [hc]; exact h3)
      (by rw [hc]; exact h4)
    rw [hb, hq] at et
    rw [tok_number_raw T s hp hl h3 h4, et]
    by_cases hdot : (int_digits_loop T s.cmd_buf (CMD_BUF_SIZE - (s.cmd_buf_pos + 1))
        (s.cmd_buf_pos + 1) 0).1 < CMD_BUF_SIZE ∧
        s.cmd_buf (int_digits_loop T s.cmd_buf (CMD_BUF_SIZE - (s.cmd_buf_pos + 1))
          (s.cmd_buf_pos + 1) 0).1 = 46
    · rw [if_pos hdot, if_pos hdot]
      refine ⟨rfl, rfl, Or.inr (Or.inr ⟨rfl, fun h => absurd h d2.symm,
        fun _ => ⟨rfl, rfl⟩, fun h => absurd h d13⟩)⟩
    · rw [if_neg hdot, if_neg hdot]
      refine ⟨rfl, rfl, Or.inr (Or.inr ⟨rfl, fun h => absurd h d1.symm,
        fun _ => ⟨rfl, rfl⟩, fun h => absurd h d12⟩)⟩
  by_cases h5 : s.cmd_buf s.cmd_buf_pos = 34
  · have et := tok_quote_raw T t hpt (by rw [hc]; exact h5)
    rw [hb, hq] at et
    obtain ⟨r1, r2, r3⟩ := str_loop_rel T s.cmd_buf (CMD_BUF_SIZE - (s.cmd_buf_pos + 1))
      (s.cmd_buf_pos + 1) 0 s.token_value.charv t.token_value.charv
      (fun i hi => absurd hi (Nat.not_lt_zero i))
    rw [r1] at et
    rw [tok_quote_raw T s hp h5, et]
    refine ⟨rfl, rfl, Or.inr (Or.inr ⟨rfl, fun h => absurd h d3.symm, ?_, ?_⟩)⟩
    · intro h
      rcases h with h | h
      · exact absurd h d12.symm
      · exact absurd h d13.symm
    · intro _
      exact ⟨r2.symm, r3⟩
  by_cases h6 : s.cmd_buf s.cmd_buf_pos = T.CMDEND
  · rw [tok_cmdend_raw T s hp hl h3 h4 h5 h6,
      tok_cmdend_raw T t hpt (by rw [hc]; exact hl) (by rw [hc]; exact h3)
        (by rw [hc]; exact h4) (by rw [hc]; exact h5) (by rw [hc]; exact h6)]
    refine ⟨rfl, by simp only [hq], Or.inr (Or.inr ⟨rfl, fun h => absurd h d8, ?_, ?_⟩)⟩
    · intro h
      rcases h with h | h
      · exact absurd h d9
      · exact absurd h d10
    · intro h
      exact absurd h d11
  · have hu : unknown_char T s.cmd_buf s.cmd_buf_pos :=
      ⟨hl, fun h => h4 (Or.inr h), h3, fun h => h4 (Or.inl h), h5, h6⟩
    have hut : unknown_char T t.cmd_buf t.cmd_buf_pos := by rw [hb, hq]; exact hu
    rw [tok_unknown T s hp hu, tok_unknown T t hpt hut]
    exact ⟨rfl, hq, Or.inr (Or.inl ⟨hp, hu, rfl, rfl⟩)⟩

/-! ### Two runs of the parser on the same buffer -/

theorem call_names (T : target_t) (x : state_t) :
    (call_next_token T x).cmd_name0 = x.cmd_name0 ∧
    (call_next_token T x).cmd_name1 = x.cmd_name1 :=
  ⟨(next_token_frame2 T x).2.2.1, (next_token_frame2 T x).2.2.2⟩

theorem call_rel (T : target_t) (s t : state_t) (h : states_agree s t) :
    states_agree (call_next_token T s) (call_next_token T t) := by
  obtain ⟨hb, hq, htok, hp1, hp2⟩ := h
  obtain ⟨-, epos, hcase⟩ := next_token_rel T s t hb hq
  obtain ⟨fs1, fs2, -, -⟩ := next_token_frame2 T s
  obtain ⟨ft1, ft2, -, -⟩ := next_token_frame2 T t
  refine ⟨?_, epos, ?_, ?_, ?_⟩
  · rw [call_cmd_buf, call_cmd_buf, hb]
  · show same_token (next_token T s).2.token_type (next_token T s).2.token_value
      (next_token T t).2.token_type (next_token T t).2.token_value
    rcases hcase with ⟨-, es, et⟩ | ⟨-, -, es, et⟩ | hc
    · rw [es, et]; exact htok
    · rw [es, et]; exact htok
    · exact hc
  · show same_param (next_token T s).2.param1 (next_token T t).2.param1
    rw [fs1, ft1]; exact hp1
  · show same_param (next_token T s).2.param2 (next_token T t).2.param2
    rw [fs2, ft2]; exact hp2

theorem cmd_rel (T : target_t) (s t : state_t) (h : states_agree s t) :
    (cmd T t).1 = (cmd T s).1 ∧ states_agree (cmd T s).2 (cmd T t).2 ∧
    (¬ (cmd T s).1 < 0 →
      (cmd T t).2.cmd_name0 = (cmd T s).2.cmd_name0 ∧
      (cmd T t).2.cmd_name1 = (cmd T s).2.cmd_name1) := by
  have h0 := h
  obtain ⟨hb, hq, htok, hp1, hp2⟩ := h0
  by_cases h1 : s.token_type = TOKEN_LETTER
  swap
  · have h1t : ¬ t.token_type = TOKEN_LETTER := by rw [← htok.1]; exact h1
    simp only [cmd, if_neg h1, if_neg h1t]
    exact ⟨trivial, h, fun hn => absurd (by decide) hn⟩
  have h1t : t.token_type = TOKEN_LETTER := by rw [← htok.1]; exact h1
  have hlet : t.token_value.letter = s.token_value.letter := (htok.2.1 h1).symm
  have ha : states_agree { s with cmd_name0 := s.token_value.letter }
      { t with cmd_name0 := t.token_value.letter } := ⟨hb, hq, htok, hp1, hp2⟩
  have hc2 := call_rel T _ _ ha
  obtain ⟨n2s, -⟩ := call_names T { s with cmd_name0 := s.token_value.letter }
  obtain ⟨n2t, -⟩ := call_names T { t with cmd_name0 := t.token_value.letter }
  simp only at n2s n2t
  simp only [cmd, if_pos h1, if_pos h1t]
  generalize call_next_token T { s with cmd_name0 := s.token_value.letter } = c2 at *
  generalize call_next_token T { t with cmd_name0 := t.token_value.letter } = c2t at *
  by_cases h2 : c2.token_type = TOKEN_LETTER
  swap
  · have h2t : ¬ c2t.token_type = TOKEN_LETTER := by rw [← hc2.2.2.1.1]; exact h2
    simp only [if_neg h2, if_neg h2t]
    exact ⟨trivial, hc2, fun hn => absurd (by decide) hn⟩
  have h2t : c2t.token_type = TOKEN_LETTER := by rw [← hc2.2.2.1.1]; exact h2
  have hlet2 : c2t.token_value.letter = c2.token_value.letter := (hc2.2.2.1.2.1 h2).symm
  have ha2 : states_agree { c2 with cmd_name1 := c2.token_value.letter }
      { c2t with cmd_name1 := c2t.token_value.letter } := hc2
  have hc3 := call_rel T _ _ ha2
  obtain ⟨n3s, m3s⟩ := call_names T { c2 with cmd_name1 := c2.token_value.letter }
  obtain ⟨n3t, m3t⟩ := call_names T { c2t with cmd_name1 := c2t.token_value.letter }
  simp only at n3s n3t m3s m3t
  simp only [if_pos h2, if_pos h2t]
  refine ⟨trivial, hc3, fun _ => ⟨?_, ?_⟩⟩
  · rw [n3s, n3t, n2s, n2t, hlet]
  · rw [m3s, m3t, hlet2]

theorem param_names (T : target_t) (p : param_ref) (x : state_t) :
    (param T p x).2.cmd_name0 = x.cmd_name0 ∧ (param T p x).2.cmd_name1 = x.cmd_name1 := by
  by_cases h : x.token_type ≠ TOKEN_INT ∧ x.token_type ≠ TOKEN_DEC ∧
      x.token_type ≠ TOKEN_LETTER ∧ x.token_type ≠ TOKEN_STR
  · simp only [param, if_pos h]
    exact ⟨trivial, trivial⟩
  · simp only [param, if_neg h]
    obtain ⟨a, b⟩ := call_names T
      (p.store x { present := true, type := x.token_type, value := x.token_value })
    rw [a, b]
    cases p <;> exact ⟨rfl, rfl⟩

theorem store_rel (p : param_ref) (s t : state_t) (h : states_agree s t) :
    states_agree (p.store s { present := true, type := s.token_type, value := s.token_value })
      (p.store t { present := true, type := t.token_type, value := t.token_value }) := by
  obtain ⟨hb, hq, htok, hp1, hp2⟩ := h
  cases p
  · exact ⟨hb, hq, htok, ⟨rfl, fun _ => htok⟩, hp2⟩
  · exact ⟨hb, hq, htok, hp1, ⟨rfl, fun _ => htok⟩⟩

theorem param_rel (T : target_t) (p : param_ref) (s t : state_t) (h : states_agree s t) :
    (param T p t).1 = (param T p s).1 ∧ states_agree (param T p s).2 (param T p t).2 := by
  have htt : t.token_type = s.token_type := h.2.2.1.1.symm
  by_cases hr : s.token_type ≠ TOKEN_INT ∧ s.token_type ≠ TOKEN_DEC ∧
      s.token_type ≠ TOKEN_LETTER ∧ s.token_type ≠ TOKEN_STR
  · have hrt : t.token_type ≠ TOKEN_INT ∧ t.token_type ≠ TOKEN_DEC ∧
        t.token_type ≠ TOKEN_LETTER ∧ t.token_type ≠ TOKEN_STR := by rw [htt]; exact hr
    simp only [param, if_pos hr, if_pos hrt]
    exact ⟨trivial, h⟩
  · have hrt : ¬ (t.token_type ≠ TOKEN_INT ∧ t.token_type ≠ TOKEN_DEC ∧
        t.token_type ≠ TOKEN_LETTER ∧ t.token_type ≠ TOKEN_STR) := by rw [htt]; exact hr
    simp only [param, if_neg hr, if_neg hrt]
    exact ⟨trivial, call_rel T _ _ (store_rel p s t h)⟩

theorem instr_rel (T : target_t) (s t : state_t) (h : states_agree s t) :
    (instr T t).1 = (instr T s).1 ∧
    (¬ (instr T s).1 < 0 →
      states_agree (instr T s).2 (instr T t).2 ∧
      (instr T t).2.cmd_name0 = (instr T s).2.cmd_name0 ∧
      (instr T t).2.cmd_name1 = (instr T s).2.cmd_name1) := by
  obtain ⟨e1, a1, n1⟩ := cmd_rel T s t h
  simp only [instr]
  generalize cmd T s = r at e1 a1 n1 ⊢
  generalize cmd T t = r2 at e1 a1 n1 ⊢
  by_cases hr : r.1 > -1
  swap
  · have hr2 : ¬ r2.1 > -1 := by rw [e1]; exact hr
    rw [if_neg hr, if_neg hr2]
    exact ⟨e1, fun hn => absurd (by omega) hr⟩
  have hr2 : r2.1 > -1 := by rw [e1]; exact hr
  rw [if_pos hr, if_pos hr2]
  obtain ⟨m0, m1⟩ := n1 (by omega)
  have htt : r2.2.token_type = r.2.token_type := a1.2.2.1.1.symm
  by_cases e3 : r.2.token_type = TOKEN_CMDEND
  · have e3b : r2.2.token_type = TOKEN_CMDEND := by rw [htt]; exact e3
    rw [if_pos e3, if_pos e3b]
    exact ⟨e1, fun _ => ⟨a1, m0, m1⟩⟩
  have e3b : ¬ r2.2.token_type = TOKEN_CMDEND := by rw [htt]; exact e3
  rw [if_neg e3, if_neg e3b]
  by_cases k3 : r.2.token_type = TOKEN_COMMA
  swap
  · have k3b : ¬ r2.2.token_type = TOKEN_COMMA := by rw [htt]; exact k3
    rw [if_neg k3, if_neg k3b]
    exact ⟨rfl, fun hn => absurd (show ((-1 : Int) < 0) by decide) hn⟩
  have k3b : r2.2.token_type = TOKEN_COMMA := by rw [htt]; exact k3
  rw [if_pos k3, if_pos k3b]
  have a4 := call_rel T _ _ a1
  obtain ⟨pe, pa⟩ := param_rel T param_ref.param1 _ _ a4
  obtain ⟨pn0, pn1⟩ := param_names T param_ref.param1 (call_next_token T r.2)
  obtain ⟨qn0, qn1⟩ := param_names T param_ref.param1 (call_next_token T r2.2)
  rw [(call_names T r.2).1] at pn0
  rw [(call_names T r.2).2] at pn1
  rw [(call_names T r2.2).1] at qn0
  rw [(call_names T r2.2).2] at qn1
  generalize param T param_ref.param1 (call_next_token T r.2) = p at pe pa pn0 pn1 ⊢
  generalize param T param_ref.param1 (call_next_token T r2.2) = p2 at pe pa qn0 qn1 ⊢
  have o0 : p2.2.cmd_name0 = p.2.cmd_name0 := by rw [pn0, qn0, m0]
  have o1 : p2.2.cmd_name1 = p.2.cmd_name1 := by rw [pn1, qn1, m1]
  by_cases hp : p.1 > -1
  swap
  · have hp2 : ¬ p2.1 > -1 := by rw [pe]; exact hp
    rw [if_neg hp, if_neg hp2]
    exact ⟨pe, fun hn => absurd (by omega) hp⟩
  have hp2 : p2.1 > -1 := by rw [pe]; exact hp
  rw [if_pos hp, if_pos hp2]
  have hpt : p2.2.token_type = p.2.token_type := pa.2.2.1.1.symm
  by_cases e5 : p.2.token_type = TOKEN_CMDEND
  · have e5b : p2.2.token_type = TOKEN_CMDEND := by rw [hpt]; exact e5
    rw [if_pos e5, if_pos e5b]
    exact ⟨pe, fun _ => ⟨pa, o0, o1⟩⟩
  have e5b : ¬ p2.2.token_type = TOKEN_CMDEND := by rw [hpt]; exact e5
  rw [if_neg e5, if_neg e5b]
  by_cases k5 : p.2.token_type = TOKEN_COMMA
  swap
  · have k5b : ¬ p2.2.token_type = TOKEN_COMMA := by rw [hpt]; exact k5
    rw [if_neg k5, if_neg k5b]
    exact ⟨rfl, fun hn => absurd (show ((-1 : Int) < 0) by decide) hn⟩
  have k5b : p2.2.token_type = TOKEN_COMMA := by rw [hpt]; exact k5
  rw [if_pos k5, if_pos k5b]
  have a6 := call_rel T _ _ pa
  obtain ⟨qe, qa⟩ := param_rel T param_ref.param2 _ _ a6
  obtain ⟨u0, u1⟩ := param_names T param_ref.param2 (call_next_token T p.2)
  obtain ⟨v0, v1⟩ := param_names T param_ref.param2 (call_next_token T p2.2)
  rw [(call_names T p.2).1] at u0
  rw [(call_names T p.2).2] at u1
  rw [(call_names T p2.2).1] at v0
  rw [(call_names T p2.2).2] at v1
  exact ⟨qe, fun _ => ⟨qa, by rw [u0, v0, o0], by rw [u1, v1, o1]⟩⟩

/-- When the first byte of the buffer starts no token, the parse fails whatever
token the previous cycle left behind. -/
theorem instr_stuck_fails (T : target_t) (c0 : state_t) (hp : c0.cmd_buf_pos < CMD_BUF_SIZE)
    (hu : unknown_char T c0.cmd_buf c0.cmd_buf_pos) :
    (instr T (call_next_token T c0)).1 = -1 := by
  obtain ⟨d1, d2, -, -, -, -, -⟩ := token_types_differ
  rcases instr_cases T (call_next_token T c0) with h | ⟨c3, hcmd, hrest⟩
  · exact h
  exfalso
  have b1 := call_cmd_buf T c0
  obtain ⟨-, q1⟩ := call_unknown T c0 hp hu
  generalize call_next_token T c0 = c1 at *
  rcases cmd_cases T c1 with h | ⟨t1, t2, hc3⟩
  · rw [hcmd] at h
    exact absurd h (show ¬ ((0 : Int) = -1) by decide)
  have hu2 : unknown_char T ({ c1 with cmd_name0 := c1.token_value.letter } : state_t).cmd_buf
      ({ c1 with cmd_name0 := c1.token_value.letter } : state_t).cmd_buf_pos := by
    show unknown_char T c1.cmd_buf c1.cmd_buf_pos
    rw [b1, q1]; exact hu
  have hp2 : ({ c1 with cmd_name0 := c1.token_value.letter } : state_t).cmd_buf_pos
      < CMD_BUF_SIZE := by
    show c1.cmd_buf_pos < CMD_BUF_SIZE
    rw [q1]; exact hp
  have b2 := call_cmd_buf T { c1 with cmd_name0 := c1.token_value.letter }
  obtain ⟨-, q2⟩ := call_unknown T _ hp2 hu2
  simp only at b2 q2
  generalize call_next_token T { c1 with cmd_name0 := c1.token_value.letter } = c2 at *
  have hu3 : unknown_char T ({ c2 with cmd_name1 := c2.token_value.letter } : state_t).cmd_buf
      ({ c2 with cmd_name1 := c2.token_value.letter } : state_t).cmd_buf_pos := by
    show unknown_char T c2.cmd_buf c2.cmd_buf_pos
    rw [b2, q2, b1, q1]; exact hu
  have hp3 : ({ c2 with cmd_name1 := c2.token_value.letter } : state_t).cmd_buf_pos
      < CMD_BUF_SIZE := by
    show c2.cmd_buf_pos < CMD_BUF_SIZE
    rw [q2, q1]; exact hp
  obtain ⟨y3, -⟩ := call_unknown T _ hp3 hu3
  simp only at y3
  rw [hcmd] at hc3
  have e3 : c3 = call_next_token T { c2 with cmd_name1 := c2.token_value.letter } :=
    congrArg Prod.snd hc3
  rw [← e3, t2] at y3
  rcases hrest with ⟨h, -⟩ | ⟨h, -⟩
  · rw [y3] at h; exact d1 h
  · rw [y3] at h; exact d2 h

/-! ## The claims -/

/-- Claim C1 (the code departs from it). The claim: every well-formed command
`LL,P1<END>` or `LL,P1,P2<END>` is parsed with each parameter recovered with
its type and value. On the command `AB,42<END>` the cycle takes the success
branch and the first parameter is an Integer of sign +1, but its magnitude is
2, not 42: the first digit of a number without `-` is consumed by the test for
the sign and never accumulated. This holds from every prior state. -/
theorem C1_unsigned_integer_parameter_loses_its_first_digit (s : state_t) :
    (cycle lf16 (buf_of [65, 66, 44, 52, 50, 10]) s).1 = branch_t.instruction ∧
    (cycle lf16 (buf_of [65, 66, 44, 52, 50, 10]) s).2.param1.present = true ∧
    (cycle lf16 (buf_of [65, 66, 44, 52, 50, 10]) s).2.param1.type = TOKEN_INT ∧
    (cycle lf16 (buf_of [65, 66, 44, 52, 50, 10]) s).2.param1.value.sign = 1 ∧
    (cycle lf16 (buf_of [65, 66, 44, 52, 50, 10]) s).2.param1.value.abs_value = 2 := by
  have k1 := tok_letter_at lf16 (buf_of [65, 66, 44, 52, 50, 10]) 0 (by decide) (by decide)
  have k2 := tok_letter_at lf16 (buf_of [65, 66, 44, 52, 50, 10]) 1 (by decide) (by decide)
  have k3 := tok_comma_at lf16 (buf_of [65, 66, 44, 52, 50, 10]) 2 (by decide) rfl
  have k4 := tok_integer lf16 (buf_of [65, 66, 44, 52, 50, 10]) 3 [2] (by decide) (by decide)
    (by decide) (by decide) (by decide) (by decide)
  have k5 := tok_cmdend_at lf16 end_mark_ok_lf16 (buf_of [65, 66, 44, 52, 50, 10]) 5
    (by decide) rfl
  have hv : base10 [2] = 2 := by decide
  have h3 : buf_of [65, 66, 44, 52, 50, 10] 3 = 52 := rfl
  simp [cycle, parse_cmd, instr, cmd, param, param_ref.store, call_next_token, next_cmd, prog,
    interpret_cmd, k1, k2, k3, k4, k5, hv, h3, TOKEN_LETTER, TOKEN_CMDEND, TOKEN_COMMA,
    TOKEN_INT, TOKEN_DEC, TOKEN_STR]

/-- Claim C2 (the code departs from it). The claim: the success branch is taken
only for two letters followed by the end mark, or by one or two parameters and
the end mark; `AB,1,2,3<END>` is not dispatched. On `AB,1,2,3<END>`, from every
prior state, `instr` returns 0 and the success branch is taken, with the cursor
left at index 7, before the third parameter: after the second parameter `instr`
does not look at the token that follows. -/
theorem C2_third_parameter_is_dispatched (s : state_t) :
    (instr lf16 (call_next_token lf16
      (next_cmd (buf_of [65, 66, 44, 49, 44, 50, 44, 51, 10]) s))).1 = 0 ∧
    (cycle lf16 (buf_of [65, 66, 44, 49, 44, 50, 44, 51, 10]) s).1 = branch_t.instruction ∧
    (cycle lf16 (buf_of [65, 66, 44, 49, 44, 50, 44, 51, 10]) s).2.param2.present = true ∧
    (cycle lf16 (buf_of [65, 66, 44, 49, 44, 50, 44, 51, 10]) s).2.token_type = TOKEN_COMMA ∧
    (cycle lf16 (buf_of [65, 66, 44, 49, 44, 50, 44, 51, 10]) s).2.cmd_buf_pos = 7 := by
  have k1 := tok_letter_at lf16 (buf_of [65, 66, 44, 49, 44, 50, 44, 51, 10]) 0
    (by decide) (by decide)
  have k2 := tok_letter_at lf16 (buf_of [65, 66, 44, 49, 44, 50, 44, 51, 10]) 1
    (by decide) (by decide)
  have k3 := tok_comma_at lf16 (buf_of [65, 66, 44, 49, 44, 50, 44, 51, 10]) 2 (by decide) rfl
  have k4 := tok_integer lf16 (buf_of [65, 66, 44, 49, 44, 50, 44, 51, 10]) 3 []
    (by decide) (by decide) (by decide) (by decide) (by decide) (by decide)
  have k5 := tok_comma_at lf16 (buf_of [65, 66, 44, 49, 44, 50, 44, 51, 10]) 4 (by decide) rfl
  have k6 := tok_integer lf16 (buf_of [65, 66, 44, 49, 44, 50, 44, 51, 10]) 5 []
    (by decide) (by decide) (by decide) (by decide) (by decide) (by decide)
  have k7 := tok_comma_at lf16 (buf_of [65, 66, 44, 49, 44, 50, 44, 51, 10]) 6 (by decide) rfl
  simp [cycle, parse_cmd, instr, cmd, param, param_ref.store, call_next_token, next_cmd, prog,
    interpret_cmd, k1, k2, k3, k4, k5, k6, k7, TOKEN_LETTER, TOKEN_CMDEND, TOKEN_COMMA,
    TOKEN_INT, TOKEN_DEC, TOKEN_STR]

/-- Claim C3. For every pair of ASCII letters `a`, `b` (upper or lower case),
every buffer that holds `a b <END>` and every prior state, one cycle (`next_cmd`
then `parse_cmd`) takes the success branch, leaves `cmd_name` equal to the two
letters in upper case, and leaves both parameters absent. The end mark is any
byte that is not itself a letter, a digit, `,`, `-`, `.` or a quote. -/
theorem C3_two_letters_and_end_mark (T : target_t) (hT : end_mark_ok T) (a b : Nat)
    (ha : is_letter a) (hb : is_letter b) (received : Nat → Nat)
    (hrec : holds received [a, b, T.CMDEND]) (s : state_t) :
    (cycle T received s).1 = branch_t.instruction ∧
    (cycle T received s).2.cmd_name0 = to_upper a ∧
    (cycle T received s).2.cmd_name1 = to_upper b ∧
    (cycle T received s).2.param1.present = false ∧
    (cycle T received s).2.param2.present = false := by
  have h0 : received 0 = a := by simpa using hrec.2 0 (by simp)
  have h1 : received 1 = b := by simpa using hrec.2 1 (by simp)
  have h2 : received 2 = T.CMDEND := by simpa using hrec.2 2 (by simp)
  simp [cycle, parse_cmd, instr, cmd, call_next_token, next_cmd, prog, interpret_cmd,
    tok_letter, tok_cmdend T hT, CMD_BUF_SIZE, h0, h1, h2, ha, hb, TOKEN_LETTER, TOKEN_CMDEND]

theorem C3_two_letters_and_end_mark_witness :
    (cycle lf16 (buf_of [97, 66, 10]) startup).1 = branch_t.instruction ∧
    (cycle lf16 (buf_of [97, 66, 10]) startup).2.cmd_name0 = 65 ∧
    (cycle lf16 (buf_of [97, 66, 10]) startup).2.cmd_name1 = 66 ∧
    (cycle lf16 (buf_of [97, 66, 10]) startup).2.param1.present = false ∧
    (cycle lf16 (buf_of [97, 66, 10]) startup).2.param2.present = false :=
  C3_two_letters_and_end_mark lf16 (by decide) 97 66 (by decide) (by decide)
    (buf_of [97, 66, 10]) (holds_buf_of [97, 66, 10] (by decide)) startup

/-- Claim C4, counterexample. The command `AB,"abc<END><END>` holds a string
that is not closed before the end mark: the call of `next_token` made after the
comma (the fourth call, at cursor 3) returns -1, and yet `instr` returns 0, the
string is stored as the first parameter and `interpret_cmd` is called. -/
theorem C4_unterminated_string_is_taken_as_parameter :
    (cycle lf16 (buf_of [65, 66, 44, 34, 97, 98, 99, 10, 10]) startup).2.lex_log
      = [(0, 0), (1, 0), (2, 0), (3, -1), (8, 0)] ∧
    (instr lf16 (call_next_token lf16
      (next_cmd (buf_of [65, 66, 44, 34, 97, 98, 99, 10, 10]) startup))).1 = 0 ∧
    (cycle lf16 (buf_of [65, 66, 44, 34, 97, 98, 99, 10, 10]) startup).1
      = branch_t.instruction ∧
    (cycle lf16 (buf_of [65, 66, 44, 34, 97, 98, 99, 10, 10]) startup).2.param1.present
      = true ∧
    (cycle lf16 (buf_of [65, 66, 44, 34, 97, 98, 99, 10, 10]) startup).2.param1.type
      = TOKEN_STR := by
  have k1 := tok_letter_at lf16 (buf_of [65, 66, 44, 34, 97, 98, 99, 10, 10]) 0
    (by decide) (by decide)
  have k2 := tok_letter_at lf16 (buf_of [65, 66, 44, 34, 97, 98, 99, 10, 10]) 1
    (by decide) (by decide)
  have k3 := tok_comma_at lf16 (buf_of [65, 66, 44, 34, 97, 98, 99, 10, 10]) 2 (by decide) rfl
  have k4 := tok_string_scan lf16 (buf_of [65, 66, 44, 34, 97, 98, 99, 10, 10]) 3 [97, 98, 99]
    (by decide) (by decide) (by decide) (by decide) (by decide) (by decide)
  have hcond : 3 + 1 + [97, 98, 99].length ≥ CMD_BUF_SIZE ∨
      buf_of [65, 66, 44, 34, 97, 98, 99, 10, 10] (3 + 1 + [97, 98, 99].length)
        = lf16.CMDEND := by decide
  simp only [if_pos hcond] at k4
  have k5 := tok_cmdend_at lf16 end_mark_ok_lf16 (buf_of [65, 66, 44, 34, 97, 98, 99, 10, 10]) 8
    (by decide) rfl
  simp [cycle, parse_cmd, instr, cmd, param, param_ref.store, call_next_token, next_cmd, prog,
    interpret_cmd, k1, k2, k3, k4, k5, startup, TOKEN_LETTER, TOKEN_CMDEND, TOKEN_COMMA,
    TOKEN_INT, TOKEN_DEC, TOKEN_STR]

/-- Claim C4, as amended. The parser makes at most seven calls of `next_token`
in a cycle: one in `parse_cmd`, two in `cmd`, one after the first comma, one in
`param` after the first parameter is stored, one after the second comma and one
in `param` after the second parameter is stored; `lex_log` lists them in order,
with the cursor at the call and the value returned. If the call of index `k`
(counted from 0) returned -1 and it is the first call, one of the two calls of
`cmd` or the call that follows the first parameter (`k` is 0, 1, 2 or 4), or if
it is the call after a comma (`k` is 3 or 5) and the byte at its cursor is not
an opening quote, then `instr` returns a negative value and the cycle ends in
the syntax error branch: `interpret_cmd` is not called. -/
theorem C4_lexer_errors_that_fail_the_parse (T : target_t) (received : Nat → Nat)
    (s : state_t) (k pos : Nat)
    (hk : (cycle T received s).2.lex_log[k]? = some (pos, -1))
    (hcase : k = 0 ∨ k = 1 ∨ k = 2 ∨ k = 4 ∨ ((k = 3 ∨ k = 5) ∧ received pos ≠ 34)) :
    (instr T (call_next_token T (next_cmd received s))).1 < 0 ∧
    (cycle T received s).1 = branch_t.syntax_error := by
  obtain ⟨h1, h2, -⟩ := cycle_state T received s
  rw [h1] at hk
  have h := instr_error_fails T (next_cmd received s) rfl k pos hk hcase
  have hneg : (instr T (call_next_token T (next_cmd received s))).1 < 0 := by
    rw [h]
    decide
  exact ⟨hneg, h2.2 hneg⟩

theorem C4_lexer_errors_that_fail_the_parse_witness :
    (cycle lf16 (buf_of [65, 35]) startup).2.lex_log[1]? = some (1, -1) ∧
    (instr lf16 (call_next_token lf16 (next_cmd (buf_of [65, 35]) startup))).1 < 0 ∧
    (cycle lf16 (buf_of [65, 35]) startup).1 = branch_t.syntax_error := by
  have hk : (cycle lf16 (buf_of [65, 35]) startup).2.lex_log[1]? = some (1, -1) := by
    have k1 := tok_letter_at lf16 (buf_of [65, 35]) 0 (by decide) (by decide)
    have k2 := tok_unknown_at lf16 (buf_of [65, 35]) 1 (by decide) (by decide)
    simp [cycle, parse_cmd, instr, cmd, param, param_ref.store, call_next_token, next_cmd, prog,
      interpret_cmd, k1, k2, startup, TOKEN_LETTER, TOKEN_CMDEND, TOKEN_COMMA,
      TOKEN_INT, TOKEN_DEC, TOKEN_STR]
  exact ⟨hk, C4_lexer_errors_that_fail_the_parse lf16 (buf_of [65, 35]) startup 1 1 hk
    (Or.inr (Or.inl rfl))⟩

/-- Claim C5 (the code departs from it). The claim: the magnitude of an integer
literal is the base-10 value of all its digits, with or without a leading `-`.
With the cursor at `42<END>`, `next_token` returns 0 with an Integer token of
sign +1 whose magnitude is 2, and the cursor after both digits: the byte at the
cursor is consumed by `cmd_buf[cmd_buf_pos++] == '-'` whether or not it is the
sign, and accumulation starts at the byte after it. -/
theorem C5_first_digit_is_not_accumulated (s : state_t) :
    next_token lf16 { s with cmd_buf := buf_of [52, 50, 10], cmd_buf_pos := 0 } =
      (0, { s with cmd_buf := buf_of [52, 50, 10]
                   cmd_buf_pos := 2
                   token_type := TOKEN_INT
                   token_value := { s.token_value with sign := 1, abs_value := 2 } }) := by
  have hv : base10 [2] = 2 := by decide
  rw [tok_integer lf16 (buf_of [52, 50, 10]) 0 [2] (by decide) (by decide) (by decide)
    (by decide) (by decide) (by decide) _ rfl rfl]
  simp [hv, buf_of]

/-- Claim C6. For every command `AB,-d1..dn<END>` that fits in the buffer,
where `d1..dn` are digits whose base-10 value is at most `INT_MAX`, and from
every prior state, the cycle takes the success branch and the first parameter
is present with type Integer, sign -1 and magnitude the base-10 value of
`d1..dn`; the second parameter is absent. (The proof does not need `n ≥ 1`.) -/
theorem C6_negative_integer_parameter (T : target_t) (hT : end_mark_ok T) (ds : List Nat)
    (hd : ∀ d ∈ ds, d < 10) (hmax : base10 ds ≤ T.INT_MAX) (received : Nat → Nat)
    (hrec : holds received ([65, 66, 44, 45] ++ digit_bytes ds ++ [T.CMDEND])) (s : state_t) :
    (cycle T received s).1 = branch_t.instruction ∧
    (cycle T received s).2.param1.present = true ∧
    (cycle T received s).2.param1.type = TOKEN_INT ∧
    (cycle T received s).2.param1.value.sign = -1 ∧
    (cycle T received s).2.param1.value.abs_value = (base10 ds : Int) ∧
    (cycle T received s).2.param2.present = false := by
  have hlen : (digit_bytes ds).length = ds.length := by simp [digit_bytes]
  have hfit : ds.length + 5 ≤ CMD_BUF_SIZE := by
    have := hrec.1
    simp [hlen] at this
    omega
  have h0 : received 0 = 65 := by simpa using holds_pre hrec 0 (by simp)
  have h1 : received 1 = 66 := by simpa using holds_pre hrec 1 (by simp)
  have h2 : received 2 = 44 := by simpa using holds_pre hrec 2 (by simp)
  have h3 : received 3 = 45 := by simpa using holds_pre hrec 3 (by simp)
  have hdig : ∀ j, j < ds.length → received (3 + 1 + j) = 48 + ds.getD j 0 := by
    intro j hj
    have := holds_mid hrec j (by simpa [hlen] using hj)
    rw [digit_bytes_getD ds j hj] at this
    simpa using this
  have hend : received (3 + 1 + ds.length) = T.CMDEND := by
    have := holds_post hrec 0 (by simp)
    simpa [hlen] using this
  have hE := hT
  obtain ⟨e1, e2, e3, e4, e5, e6⟩ := hE
  have k4 := tok_minus_digits T received 3 ds h3 hd hdig (by omega) hmax
    (fun _ => by rw [hend]; exact ⟨e2, e5⟩)
  have k5 := tok_cmdend_at T hT received (3 + 1 + ds.length) (by omega) hend
  simp [cycle, parse_cmd, instr, cmd, param, param_ref.store, call_next_token, next_cmd, prog,
    interpret_cmd, tok_letter, tok_comma, k4, k5, CMD_BUF_SIZE, h0, h1, h2, is_letter,
    TOKEN_LETTER, TOKEN_CMDEND, TOKEN_COMMA, TOKEN_INT, TOKEN_DEC, TOKEN_STR]

theorem C6_negative_integer_parameter_witness :
    (cycle lf16 (buf_of [65, 66, 44, 45, 52, 50, 10]) startup).1 = branch_t.instruction ∧
    (cycle lf16 (buf_of [65, 66, 44, 45, 52, 50, 10]) startup).2.param1.present = true ∧
    (cycle lf16 (buf_of [65, 66, 44, 45, 52, 50, 10]) startup).2.param1.type = TOKEN_INT ∧
    (cycle lf16 (buf_of [65, 66, 44, 45, 52, 50, 10]) startup).2.param1.value.sign = -1 ∧
    (cycle lf16 (buf_of [65, 66, 44, 45, 52, 50, 10]) startup).2.param1.value.abs_value = 42 ∧
    (cycle lf16 (buf_of [65, 66, 44, 45, 52, 50, 10]) startup).2.param2.present = false :=
  C6_negative_integer_parameter lf16 (by decide) [4, 2] (by decide) (by decide)
    (buf_of [65, 66, 44, 45, 52, 50, 10])
    (holds_buf_of [65, 66, 44, 45, 52, 50, 10] (by decide)) startup

/-- Claim C7 (the code departs from it). The claim: the fractional part of a
Decimal token is the value of its first two fraction digits only, whatever the
integer digits are, and lies in 0..99. With the cursor at `-12.34<END>`,
`next_token` returns a Decimal token with `int_part = -12` and
`dec_part = 1234`: `dec_part` is never set to 0, it is the storage of
`abs_value`, so the fraction digits are appended to the value of the integer
digits. -/
theorem C7_fraction_accumulates_on_top_of_the_integer_digits (s : state_t) :
    (next_token lf16
      { s with cmd_buf := buf_of [45, 49, 50, 46, 51, 52, 10], cmd_buf_pos := 0 }).1 = 0 ∧
    (next_token lf16
      { s with cmd_buf := buf_of [45, 49, 50, 46, 51, 52, 10], cmd_buf_pos := 0 }).2.token_type
      = TOKEN_DEC ∧
    (next_token lf16
      { s with cmd_buf := buf_of [45, 49, 50, 46, 51, 52, 10],
               cmd_buf_pos := 0 }).2.token_value.int_part = -12 ∧
    (next_token lf16
      { s with cmd_buf := buf_of [45, 49, 50, 46, 51, 52, 10],
               cmd_buf_pos := 0 }).2.token_value.dec_part = 1234 := by
  have hv : base10 [1, 2] = 12 := by decide
  have hw : base10 [1, 2, 3, 4] = 1234 := by decide
  rw [tok_decimal lf16 (buf_of [45, 49, 50, 46, 51, 52, 10]) 0 [1, 2] [3, 4] (by decide)
    (by decide) (by decide) (by decide) (by decide) (by decide) (by decide) (by decide)
    (by decide) (by decide) _ rfl rfl]
  simp [hv, hw, buf_of, token_value_t.int_part, token_value_t.dec_part]

/-- Claim C8 (the code departs from it). The claim: a third fraction digit is
consumed without being accumulated, so that `AB,1.239<END>` parses as a command
with one parameter. On the buffer `AB,1.239<END>`, the call of `next_token` at
the number (cursor 3) makes a Decimal token and leaves the cursor at index 7,
where the third fraction digit `9` stands; and the cycle, from every prior
state, ends in the syntax error branch. -/
theorem C8_third_fraction_digit_is_left_in_the_buffer (s : state_t) :
    (next_token lf16
      { s with cmd_buf := buf_of [65, 66, 44, 49, 46, 50, 51, 57, 10],
               cmd_buf_pos := 3 }).2.token_type = TOKEN_DEC ∧
    (next_token lf16
      { s with cmd_buf := buf_of [65, 66, 44, 49, 46, 50, 51, 57, 10],
               cmd_buf_pos := 3 }).2.cmd_buf_pos = 7 ∧
    buf_of [65, 66, 44, 49, 46, 50, 51, 57, 10] 7 = 57 ∧
    (cycle lf16 (buf_of [65, 66, 44, 49, 46, 50, 51, 57, 10]) s).1 = branch_t.syntax_error := by
  have k4 := tok_decimal lf16 (buf_of [65, 66, 44, 49, 46, 50, 51, 57, 10]) 3 [] [2, 3]
    (by decide) (by decide) (by decide) (by decide) (by decide) (by decide) (by decide)
    (by decide) (by decide) (by decide)
  refine ⟨?_, ?_, rfl, ?_⟩
  · rw [k4 _ rfl rfl]
  · rw [k4 _ rfl rfl]
    rfl
  · have k1 := tok_letter_at lf16 (buf_of [65, 66, 44, 49, 46, 50, 51, 57, 10]) 0
      (by decide) (by decide)
    have k2 := tok_letter_at lf16 (buf_of [65, 66, 44, 49, 46, 50, 51, 57, 10]) 1
      (by decide) (by decide)
    have k3 := tok_comma_at lf16 (buf_of [65, 66, 44, 49, 46, 50, 51, 57, 10]) 2 (by decide) rfl
    have k5 := tok_integer lf16 (buf_of [65, 66, 44, 49, 46, 50, 51, 57, 10]) 7 []
      (by decide) (by decide) (by decide) (by decide) (by decide) (by decide)
    simp [cycle, parse_cmd, instr, cmd, param, param_ref.store, call_next_token, next_cmd, prog,
      interpret_cmd, k1, k2, k3, k4, k5, TOKEN_LETTER, TOKEN_CMDEND, TOKEN_COMMA,
      TOKEN_INT, TOKEN_DEC, TOKEN_STR]

/-- Claim C9. Let the cursor stand at an opening quote that is followed by the
`n ≤ 64` bytes `bs`, none of them a quote or the end mark, and by a closing
quote, all inside the buffer. Then `next_token` returns 0 with a String token
of length `n` whose first `n` bytes are `bs`, and the cursor ends just after the
closing quote. In particular every command `AB,"bs"<END>` with such a string
(of 64 bytes or fewer) is parsed with success, the string being the first
parameter. -/
theorem C9_quoted_string_token (T : target_t) (hT : end_mark_ok T) (bs : List Nat)
    (hlen : bs.length ≤ 64) (hbs : ∀ b ∈ bs, b ≠ 34 ∧ b ≠ T.CMDEND) (s : state_t)
    (hquote : s.cmd_buf s.cmd_buf_pos = 34)
    (hbuf : ∀ j, j < bs.length → s.cmd_buf (s.cmd_buf_pos + 1 + j) = bs.getD j 0)
    (hclose : s.cmd_buf (s.cmd_buf_pos + 1 + bs.length) = 34)
    (hfit : s.cmd_buf_pos + 1 + bs.length < CMD_BUF_SIZE) :
    ((next_token T s).1 = 0 ∧
      (next_token T s).2.token_type = TOKEN_STR ∧
      (next_token T s).2.token_value.length = bs.length ∧
      (∀ j, j < bs.length → (next_token T s).2.token_value.charv j = bs.getD j 0) ∧
      (next_token T s).2.cmd_buf_pos = s.cmd_buf_pos + bs.length + 2) ∧
    (∀ (received : Nat → Nat) (s0 : state_t),
      holds received ([65, 66, 44, 34] ++ bs ++ [34, T.CMDEND]) →
        (cycle T received s0).1 = branch_t.instruction ∧
        (cycle T received s0).2.param1.present = true ∧
        (cycle T received s0).2.param1.type = TOKEN_STR ∧
        (cycle T received s0).2.param1.value.length = bs.length ∧
        (∀ j, j < bs.length → (cycle T received s0).2.param1.value.charv j = bs.getD j 0) ∧
        (cycle T received s0).2.param2.present = false) := by
  constructor
  · rw [tok_string T hT.2.2.2.2.2 s.cmd_buf s.cmd_buf_pos bs hquote hbs hlen
      hbuf hclose hfit s rfl rfl]
    refine ⟨rfl, rfl, rfl, ?_, by simp only; omega⟩
    exact (str_loop_scan T s.cmd_buf s.cmd_buf_pos bs s.token_value.charv hbs hlen hbuf
      (by omega) (fun _ _ => Or.inl hclose)).2.2
  · intro received s0 hrec
    have hfit0 : bs.length + 6 ≤ CMD_BUF_SIZE := by
      have := hrec.1
      simp at this
      omega
    have h0 : received 0 = 65 := by simpa using holds_pre hrec 0 (by simp)
    have h1 : received 1 = 66 := by simpa using holds_pre hrec 1 (by simp)
    have h2 : received 2 = 44 := by simpa using holds_pre hrec 2 (by simp)
    have h3 : received 3 = 34 := by simpa using holds_pre hrec 3 (by simp)
    have hstr : ∀ j, j < bs.length → received (3 + 1 + j) = bs.getD j 0 := by
      intro j hj
      simpa using holds_mid hrec j hj
    have hq : received (3 + 1 + bs.length) = 34 := by
      simpa using holds_post hrec 0 (by simp)
    have hend : received (3 + 1 + bs.length + 1) = T.CMDEND := by
      have := holds_post hrec 1 (by simp)
      simpa using this
    have k4 := tok_string T hT.2.2.2.2.2 received 3 bs h3 hbs hlen hstr hq (by omega)
    have k5 := tok_cmdend_at T hT received (3 + 1 + bs.length + 1) (by omega) hend
    have hc := (str_loop_scan T received 3 bs s0.token_value.charv hbs hlen hstr
      (by omega) (fun _ _ => Or.inl hq)).2.2
    simp [cycle, parse_cmd, instr, cmd, param, param_ref.store, call_next_token, next_cmd, prog,
      interpret_cmd, tok_letter, tok_comma, k4, k5, CMD_BUF_SIZE, h0, h1, h2, is_letter,
      TOKEN_LETTER, TOKEN_CMDEND, TOKEN_COMMA, TOKEN_INT, TOKEN_DEC, TOKEN_STR]
    simpa [CMD_BUF_SIZE] using hc

theorem C9_quoted_string_token_witness :
    (next_token lf16
      { startup with cmd_buf := buf_of (34 :: List.replicate 64 97 ++ [34, 10]) }).1 = 0 ∧
    (next_token lf16
      { startup with
        cmd_buf := buf_of (34 :: List.replicate 64 97 ++ [34, 10]) }).2.token_type
      = TOKEN_STR ∧
    (next_token lf16
      { startup with
        cmd_buf := buf_of (34 :: List.replicate 64 97 ++ [34, 10]) }).2.token_value.length
      = 64 ∧
    (next_token lf16
      { startup with
        cmd_buf := buf_of (34 :: List.replicate 64 97 ++ [34, 10]) }).2.token_value.charv 63
      = 97 ∧
    (next_token lf16
      { startup with
        cmd_buf := buf_of (34 :: List.replicate 64 97 ++ [34, 10]) }).2.cmd_buf_pos = 66 ∧
    (cycle lf16 (buf_of ([65, 66, 44, 34] ++ List.replicate 64 97 ++ [34, 10])) startup).1
      = branch_t.instruction := by
  have h := C9_quoted_string_token lf16 (by decide) (List.replicate 64 97) (by decide)
    (by decide) { startup with cmd_buf := buf_of (34 :: List.replicate 64 97 ++ [34, 10]) }
    (by decide) (by decide) (by decide) (by decide)
  exact ⟨h.1.1, h.1.2.1, h.1.2.2.1, h.1.2.2.2.1 63 (by decide), h.1.2.2.2.2,
    (h.2 (buf_of ([65, 66, 44, 34] ++ List.replicate 64 97 ++ [34, 10])) startup
      (holds_buf_of _ (by decide))).1⟩

/-- Claim C10 (the code departs from it). The claim: a quoted string of 65 or
more bytes whose 65th byte is neither a quote nor the end mark makes
`next_token` return an error. With the cursor at a quote followed by 65 bytes
`a`, a closing quote and the end mark, `next_token` returns 0 with a String
token of length 64 and the cursor at index 66, after the 65th byte: the test
after the loop looks for the end of the buffer and for the end mark only, not
for the missing closing quote. -/
theorem C10_sixty_fifth_byte_ends_the_string_without_error (s : state_t) :
    (next_token lf16
      { s with cmd_buf := buf_of (34 :: List.replicate 65 97 ++ [34, 10])
               cmd_buf_pos := 0 }).1 = 0 ∧
    (next_token lf16
      { s with cmd_buf := buf_of (34 :: List.replicate 65 97 ++ [34, 10])
               cmd_buf_pos := 0 }).2.token_type = TOKEN_STR ∧
    (next_token lf16
      { s with cmd_buf := buf_of (34 :: List.replicate 65 97 ++ [34, 10])
               cmd_buf_pos := 0 }).2.token_value.length = 64 ∧
    (next_token lf16
      { s with cmd_buf := buf_of (34 :: List.replicate 65 97 ++ [34, 10])
               cmd_buf_pos := 0 }).2.cmd_buf_pos = 66 := by
  have hcond : ¬ (0 + 1 + (List.replicate 64 97).length ≥ CMD_BUF_SIZE ∨
      buf_of (34 :: List.replicate 65 97 ++ [34, 10]) (0 + 1 + (List.replicate 64 97).length)
        = lf16.CMDEND) := by decide
  rw [tok_string_scan lf16 (buf_of (34 :: List.replicate 65 97 ++ [34, 10])) 0
    (List.replicate 64 97) (by decide) (by decide) (by decide) (by decide) (by decide)
    (by decide) { s with cmd_buf := buf_of (34 :: List.replicate 65 97 ++ [34, 10])
                         cmd_buf_pos := 0 } rfl rfl, if_neg hcond]
  exact ⟨rfl, rfl, by simp, by simp⟩

/-- Claim C11 (the code departs from it). The claim: an Integer token comes from
text that matches `-?[0-9]+`, and a `-` that no digit follows is not accepted as
an integer parameter. On the command `AB,-<END>`, from every prior state, the
cycle takes the success branch and the first parameter is present with type
Integer, sign -1 and magnitude 0: the loop that reads the digits may run zero
times, and nothing checks that it read one. -/
theorem C11_lone_minus_is_accepted_as_integer (s : state_t) :
    (cycle lf16 (buf_of [65, 66, 44, 45, 10]) s).1 = branch_t.instruction ∧
    (cycle lf16 (buf_of [65, 66, 44, 45, 10]) s).2.param1.present = true ∧
    (cycle lf16 (buf_of [65, 66, 44, 45, 10]) s).2.param1.type = TOKEN_INT ∧
    (cycle lf16 (buf_of [65, 66, 44, 45, 10]) s).2.param1.value.sign = -1 ∧
    (cycle lf16 (buf_of [65, 66, 44, 45, 10]) s).2.param1.value.abs_value = 0 ∧
    (cycle lf16 (buf_of [65, 66, 44, 45, 10]) s).2.param2.present = false := by
  have k1 := tok_letter_at lf16 (buf_of [65, 66, 44, 45, 10]) 0 (by decide) (by decide)
  have k2 := tok_letter_at lf16 (buf_of [65, 66, 44, 45, 10]) 1 (by decide) (by decide)
  have k3 := tok_comma_at lf16 (buf_of [65, 66, 44, 45, 10]) 2 (by decide) rfl
  have k4 := tok_minus_digits lf16 (buf_of [65, 66, 44, 45, 10]) 3 [] (by decide) (by decide)
    (by decide) (by decide) (by decide) (by decide)
  have k5 := tok_cmdend_at lf16 end_mark_ok_lf16 (buf_of [65, 66, 44, 45, 10]) 4
    (by decide) rfl
  have hv : base10 [] = 0 := by decide
  simp [cycle, parse_cmd, instr, cmd, param, param_ref.store, call_next_token, next_cmd, prog,
    interpret_cmd, k1, k2, k3, k4, k5, hv, TOKEN_LETTER, TOKEN_CMDEND, TOKEN_COMMA,
    TOKEN_INT, TOKEN_DEC, TOKEN_STR]

/-- Claim C12. Letters are folded to upper case by the lexer. For every state
with the cursor below 128 on a lower case letter `c`, `next_token` gives the
same return value, token type, token letter and cursor as on the same state
with that byte replaced by the upper case of `c`. And for every state `t`, if
the token type after a call is Letter, then either the call changed nothing (no
token was made) or the byte at the cursor was a letter, the call returned 0, the
token letter is the upper case of that byte and lies in `A..Z`, and the cursor
has advanced by exactly 1. -/
theorem C12_letters_fold_to_upper_case (T : target_t) (s : state_t)
    (hp : s.cmd_buf_pos < CMD_BUF_SIZE)
    (hc : 97 ≤ s.cmd_buf s.cmd_buf_pos ∧ s.cmd_buf s.cmd_buf_pos ≤ 122) :
    ((next_token T s).1 =
        (next_token T { s with cmd_buf :=
          (Function.update s.cmd_buf s.cmd_buf_pos (s.cmd_buf s.cmd_buf_pos - 32)) }).1 ∧
      (next_token T s).2.token_type =
        (next_token T { s with cmd_buf :=
          (Function.update s.cmd_buf s.cmd_buf_pos (s.cmd_buf s.cmd_buf_pos - 32)) }).2.token_type ∧
      (next_token T s).2.token_value.letter =
        (next_token T { s with cmd_buf :=
          (Function.update s.cmd_buf s.cmd_buf_pos (s.cmd_buf s.cmd_buf_pos - 32)) }).2.token_value.letter ∧
      (next_token T s).2.cmd_buf_pos =
        (next_token T { s with cmd_buf :=
          (Function.update s.cmd_buf s.cmd_buf_pos (s.cmd_buf s.cmd_buf_pos - 32)) }).2.cmd_buf_pos) ∧
    (∀ t : state_t, (next_token T t).2.token_type = TOKEN_LETTER →
      (next_token T t).2 = t ∨
      (t.cmd_buf_pos < CMD_BUF_SIZE ∧ is_letter (t.cmd_buf t.cmd_buf_pos) ∧
        (next_token T t).1 = 0 ∧
        (next_token T t).2.token_value.letter = to_upper (t.cmd_buf t.cmd_buf_pos) ∧
        65 ≤ (next_token T t).2.token_value.letter ∧
        (next_token T t).2.token_value.letter ≤ 90 ∧
        (next_token T t).2.cmd_buf_pos = t.cmd_buf_pos + 1)) := by
  constructor
  · have hup : is_letter (Function.update s.cmd_buf s.cmd_buf_pos
        (s.cmd_buf s.cmd_buf_pos - 32) s.cmd_buf_pos) := by
      rw [Function.update_same]
      exact Or.inl ⟨by omega, by omega⟩
    have hlet : to_upper (s.cmd_buf s.cmd_buf_pos) =
        to_upper (Function.update s.cmd_buf s.cmd_buf_pos
          (s.cmd_buf s.cmd_buf_pos - 32) s.cmd_buf_pos) := by
      rw [Function.update_same, @to_upper_of_upper (s.cmd_buf s.cmd_buf_pos - 32)
        ⟨by omega, by omega⟩]
      unfold to_upper
      rw [if_pos hc]
    rw [tok_letter T s hp (Or.inr hc),
      tok_letter T { s with cmd_buf :=
        (Function.update s.cmd_buf s.cmd_buf_pos (s.cmd_buf s.cmd_buf_pos - 32)) } hp hup]
    exact ⟨rfl, rfl, hlet, rfl⟩
  · intro t ht
    rcases next_token_kinds T t with ⟨-, e⟩ | ⟨-, -, e⟩ | ⟨hp1, hl, e⟩ | ⟨-, -, -, hk, -, -⟩ |
      ⟨-, -, hk, -⟩
    · left; rw [e]
    · left; rw [e]
    · right
      rw [e]
      refine ⟨hp1, hl, rfl, rfl, ?_, ?_, rfl⟩
      · simp only [to_upper]
        rcases hl with h | h <;> split_ifs <;> omega
      · simp only [to_upper]
        rcases hl with h | h <;> split_ifs <;> omega
    · exfalso
      rw [ht] at hk
      revert hk
      decide
    · exfalso
      rw [ht] at hk
      revert hk
      decide

theorem C12_letters_fold_to_upper_case_witness :
    (next_token lf16 (state_at (buf_of [113]) 0)).1 =
      (next_token lf16 (state_at (Function.update (buf_of [113]) 0 81) 0)).1 ∧
    (next_token lf16 (state_at (buf_of [113]) 0)).2.token_type =
      (next_token lf16 (state_at (Function.update (buf_of [113]) 0 81) 0)).2.token_type ∧
    (next_token lf16 (state_at (buf_of [113]) 0)).2.token_value.letter =
      (next_token lf16
        (state_at (Function.update (buf_of [113]) 0 81) 0)).2.token_value.letter ∧
    (next_token lf16 (state_at (buf_of [113]) 0)).2.cmd_buf_pos =
      (next_token lf16 (state_at (Function.update (buf_of [113]) 0 81) 0)).2.cmd_buf_pos :=
  (C12_letters_fold_to_upper_case lf16 (state_at (buf_of [113]) 0) (by decide) (by decide)).1

/-- Claim C13. For every prior state and every content that `mcuicom_read_cmd`
leaves in the buffer, after `next_cmd` the cursor is 0 and both parameters are
absent; and `next_cmd` applied twice gives the state that it gives applied
once. -/
theorem C13_reset_is_idempotent (received : Nat → Nat) (s : state_t) :
    (next_cmd received s).cmd_buf_pos = 0 ∧
    (next_cmd received s).param1.present = false ∧
    (next_cmd received s).param2.present = false ∧
    next_cmd received (next_cmd received s) = next_cmd received s :=
  ⟨rfl, rfl, rfl, rfl⟩

/-- Claim C14, counterexample. After 128 calls on a buffer filled with commas
the cursor is 128; the next call returns 0, not an error, and leaves the cursor
at 128. -/
theorem C14_call_at_end_of_buffer_returns_success :
    (lex_calls lf16 128 (state_at (fun _ => 44) 0)).cmd_buf_pos = 128 ∧
    (next_token lf16
      (lex_calls lf16 128 (state_at (fun _ => 44) 0))).1 = 0 ∧
    (next_token lf16
      (lex_calls lf16 128 (state_at (fun _ => 44) 0))).2.cmd_buf_pos = 128 := by
  obtain ⟨h1, -⟩ := lex_calls_commas lf16 128 (state_at (fun _ => 44) 0)
    (fun _ => rfl) (by decide)
  have h2 : (lex_calls lf16 128 (state_at (fun _ => 44) 0)).cmd_buf_pos = 128 := by
    rw [h1]
    rfl
  have h3 := tok_past_end lf16 (lex_calls lf16 128 (state_at (fun _ => 44) 0))
    (by rw [h2]; decide)
  rw [h3]
  exact ⟨h2, rfl, h2⟩

/-- Claim C14, as amended. A call of `next_token` made with the cursor below 128
either advances the cursor by at least one byte or returns the error -1 and
leaves the whole state as it was; a call made with the cursor at 128 or beyond
returns 0 and leaves the whole state as it was. -/
theorem C14_advance_or_error_below_the_end (T : target_t) (s : state_t) :
    (s.cmd_buf_pos < CMD_BUF_SIZE →
      s.cmd_buf_pos + 1 ≤ (next_token T s).2.cmd_buf_pos ∨ next_token T s = (-1, s)) ∧
    (CMD_BUF_SIZE ≤ s.cmd_buf_pos → next_token T s = (0, s)) := by
  constructor
  · intro hp
    rcases next_token_kinds T s with ⟨h, -⟩ | ⟨-, -, e⟩ | ⟨-, -, e⟩ | ⟨-, -, -, -, h, -⟩ |
      ⟨-, -, -, h, -⟩
    · exact absurd hp h
    · exact Or.inr e
    · left; rw [e]
    · exact Or.inl h
    · left; omega
  · intro h
    exact tok_past_end T s (by omega)

/-- Claim C15, counterexample. The buffer holds a quoted string of 64 bytes and
then an opening quote followed by 61 bytes up to the end of the buffer. Starting
from cursor 0, the first call leaves the cursor at 66 and the second call, which
scans to the end of the buffer, leaves it at 129. -/
theorem C15_cursor_reaches_129 :
    (lex_calls lf16 1
      (state_at (buf_of (34 :: List.replicate 64 97 ++ [34, 34] ++ List.replicate 61 97))
        0)).cmd_buf_pos = 66 ∧
    (lex_calls lf16 2
      (state_at (buf_of (34 :: List.replicate 64 97 ++ [34, 34] ++ List.replicate 61 97))
        0)).cmd_buf_pos = 129 := by
  have e1 := tok_string lf16 (by decide)
    (buf_of (34 :: List.replicate 64 97 ++ [34, 34] ++ List.replicate 61 97)) 0
    (List.replicate 64 97) (by decide) (by decide) (by decide) (by decide) (by decide)
    (by decide)
    (state_at (buf_of (34 :: List.replicate 64 97 ++ [34, 34] ++ List.replicate 61 97)) 0)
    rfl rfl
  have e2 := tok_string_scan lf16
    (buf_of (34 :: List.replicate 64 97 ++ [34, 34] ++ List.replicate 61 97)) 66
    (List.replicate 61 97) (by decide) (by decide) (by decide) (by decide) (by decide)
    (by decide)
    (next_token lf16
      (state_at (buf_of (34 :: List.replicate 64 97 ++ [34, 34] ++ List.replicate 61 97))
        0)).2
    (by rw [e1]; rfl) (by rw [e1]; rfl)
  constructor
  · rw [lex_calls, lex_calls, e1]
    rfl
  · rw [lex_calls, lex_calls, lex_calls, e2]
    rfl

/-- Claim C15, as amended. Starting from the state that `next_cmd` leaves
(cursor 0), for every buffer content and after any number of calls of
`next_token`, the cursor never exceeds 129, one more than the capacity of the
buffer. A call made with the cursor at most 128 leaves it beyond 128 only when
it makes a String token and returns the error -1. -/
theorem C15_cursor_never_exceeds_129 (T : target_t) (received : Nat → Nat) (s : state_t)
    (n : Nat) :
    (lex_calls T n (next_cmd received s)).cmd_buf_pos ≤ CMD_BUF_SIZE + 1 ∧
    (∀ t : state_t, t.cmd_buf_pos ≤ CMD_BUF_SIZE →
      CMD_BUF_SIZE < (next_token T t).2.cmd_buf_pos →
        (next_token T t).1 = -1 ∧ (next_token T t).2.token_type = TOKEN_STR) := by
  constructor
  · exact lex_calls_cursor_le T n (next_cmd received s) (Nat.zero_le _)
  · intro t ht hgt
    rcases next_token_kinds T t with ⟨-, e⟩ | ⟨-, -, e⟩ | ⟨hp, -, e⟩ | ⟨-, -, -, -, -, e⟩ |
      ⟨-, -, hk, -, -, e⟩
    · exfalso; rw [e] at hgt; simp only at hgt; omega
    · exfalso; rw [e] at hgt; simp only at hgt; omega
    · exfalso; rw [e] at hgt; simp only at hgt; omega
    · omega
    · rcases e with ⟨-, e⟩ | e
      · omega
      · exact ⟨e, hk⟩

/-- Claim C16. The outcome of a cycle depends only on the content
of the command buffer. Take any two prior states `s` and `t`, with whatever
token, command name, parameters and cursor the cycles before left in them, and
give both the same buffer content `received`. Then `next_cmd` followed by
`parse_cmd` takes the same branch in both, and when that branch is the success
branch the two letters of the command name are equal and each parameter has the
same presence and, when present, the same type and the same value of that type
(the letter; the sign and the magnitude, which the decimal reads as its integer
and fractional part; the length and the bytes of the string). -/
theorem C16_cycle_depends_only_on_the_buffer (T : target_t) (received : Nat → Nat)
    (s t : state_t) :
    (cycle T received s).1 = (cycle T received t).1 ∧
    ((cycle T received s).1 = branch_t.instruction →
      (cycle T received s).2.cmd_name0 = (cycle T received t).2.cmd_name0 ∧
      (cycle T received s).2.cmd_name1 = (cycle T received t).2.cmd_name1 ∧
      same_param (cycle T received s).2.param1 (cycle T received t).2.param1 ∧
      same_param (cycle T received s).2.param2 (cycle T received t).2.param2) := by
  obtain ⟨es, fs, gs⟩ := cycle_state T received s
  obtain ⟨et, ft, gt⟩ := cycle_state T received t
  have key : (instr T (call_next_token T (next_cmd received t))).1 =
        (instr T (call_next_token T (next_cmd received s))).1 ∧
      (¬ (instr T (call_next_token T (next_cmd received s))).1 < 0 →
        states_agree (instr T (call_next_token T (next_cmd received s))).2
          (instr T (call_next_token T (next_cmd received t))).2 ∧
        (instr T (call_next_token T (next_cmd received t))).2.cmd_name0 =
          (instr T (call_next_token T (next_cmd received s))).2.cmd_name0 ∧
        (instr T (call_next_token T (next_cmd received t))).2.cmd_name1 =
          (instr T (call_next_token T (next_cmd received s))).2.cmd_name1) := by
    have hb : (next_cmd received t).cmd_buf = (next_cmd received s).cmd_buf := rfl
    have hq : (next_cmd received t).cmd_buf_pos = (next_cmd received s).cmd_buf_pos := rfl
    have hp0 : (next_cmd received s).cmd_buf_pos < CMD_BUF_SIZE := by
      show 0 < CMD_BUF_SIZE
      decide
    obtain ⟨-, epos, hcase⟩ := next_token_rel T _ _ hb hq
    rcases hcase with ⟨hn, -, -⟩ | ⟨-, hu, -, -⟩ | hc
    · exact absurd hp0 hn
    · have i1 := instr_stuck_fails T (next_cmd received s) hp0 hu
      have i2 := instr_stuck_fails T (next_cmd received t) hp0 hu
      rw [i1, i2]
      exact ⟨rfl, fun hn => absurd (by decide) hn⟩
    · obtain ⟨fs1, fs2, -, -⟩ := next_token_frame2 T (next_cmd received s)
      obtain ⟨ft1, ft2, -, -⟩ := next_token_frame2 T (next_cmd received t)
      have ha : states_agree (call_next_token T (next_cmd received s))
          (call_next_token T (next_cmd received t)) := by
        refine ⟨?_, epos, hc, ?_, ?_⟩
        · rw [call_cmd_buf, call_cmd_buf]
          rfl
        · show same_param (next_token T (next_cmd received s)).2.param1
            (next_token T (next_cmd received t)).2.param1
          rw [fs1, ft1]
          exact ⟨rfl, fun hpres => absurd hpres (by simp [next_cmd])⟩
        · show same_param (next_token T (next_cmd received s)).2.param2
            (next_token T (next_cmd received t)).2.param2
          rw [fs2, ft2]
          exact ⟨rfl, fun hpres => absurd hpres (by simp [next_cmd])⟩
      exact instr_rel T _ _ ha
  obtain ⟨k1, k2⟩ := key
  have hbranch : (cycle T received s).1 = (cycle T received t).1 := by
    by_cases hneg : (instr T (call_next_token T (next_cmd received s))).1 < 0
    · rw [fs.2 hneg, ft.2 (by rw [k1]; exact hneg)]
    · rw [gs.2 hneg, gt.2 (by rw [k1]; exact hneg)]
  refine ⟨hbranch, fun hi => ?_⟩
  obtain ⟨ag, m0, m1⟩ := k2 (gs.1 hi)
  rw [es, et]
  exact ⟨m0.symm, m1.symm, ag.2.2.2.1, ag.2.2.2.2⟩

/-- Claim C17. When the cursor is below 128 and the byte at the cursor is not a
letter, a digit, `,`, `-`, a quote or the end mark, `next_token` returns -1 and
the state after the call is the state before it: cursor, token type and token
value are unchanged. Hence any number of further calls leave the state as it
is, and each of them returns -1 again. -/
theorem C17_unknown_character_changes_nothing (T : target_t) (s : state_t)
    (hp : s.cmd_buf_pos < CMD_BUF_SIZE) (hu : unknown_char T s.cmd_buf s.cmd_buf_pos) :
    next_token T s = (-1, s) ∧
    (next_token T s).2.cmd_buf_pos = s.cmd_buf_pos ∧
    (next_token T s).2.token_type = s.token_type ∧
    (next_token T s).2.token_value = s.token_value ∧
    (∀ n, lex_calls T n s = s ∧ next_token T (lex_calls T n s) = (-1, s)) := by
  have e := tok_unknown T s hp hu
  refine ⟨e, by rw [e], by rw [e], by rw [e], fun n => ?_⟩
  have h := lex_calls_stuck T s (by rw [e]) n
  rw [h]
  exact ⟨rfl, e⟩

theorem C17_unknown_character_changes_nothing_witness :
    next_token lf16 (state_at (buf_of [65, 35]) 1) = (-1, state_at (buf_of [65, 35]) 1) :=
  (C17_unknown_character_changes_nothing lf16 (state_at (buf_of [65, 35]) 1)
    (by decide) (by decide)).1

/-- Claim C18. Bounds safety of the lexer. `next_token_chk` is `next_token` with
every read of `cmd_buf` and every write of `charv` checked against the bounds of
the array (index below 128, index below 64) and with every loop limited to as
many iterations as there are bytes from the cursor to the end of the buffer.
For every target, buffer content, cursor and state it gives a result, and the
result is that of `next_token`: no access is out of range and no loop is cut
short. -/
theorem C18_every_array_access_is_in_range (T : target_t) (s : state_t) :
    next_token_chk T s = some (next_token T s) := by
  by_cases hp : s.cmd_buf_pos < CMD_BUF_SIZE
  swap
  · simp only [next_token_chk, next_token, if_neg hp]
  by_cases h1 : 65 ≤ s.cmd_buf s.cmd_buf_pos ∧ s.cmd_buf s.cmd_buf_pos ≤ 90
  · simp only [next_token_chk, next_token, read_cmd_buf, if_pos hp, if_pos h1,
      Option.some_bind]
  by_cases h2 : 97 ≤ s.cmd_buf s.cmd_buf_pos ∧ s.cmd_buf s.cmd_buf_pos ≤ 122
  · simp only [next_token_chk, next_token, read_cmd_buf, if_pos hp, if_neg h1, if_pos h2,
      Option.some_bind]
  by_cases h3 : s.cmd_buf s.cmd_buf_pos = 44
  · simp only [next_token_chk, next_token, read_cmd_buf, if_pos hp, if_neg h1, if_neg h2,
      if_pos h3, Option.some_bind]
  have hl : ¬ is_letter (s.cmd_buf s.cmd_buf_pos) := fun h => h.elim h1 h2
  by_cases h4 : s.cmd_buf s.cmd_buf_pos = 45 ∨
      (48 ≤ s.cmd_buf s.cmd_buf_pos ∧ s.cmd_buf s.cmd_buf_pos ≤ 57)
  · have e1 := int_digits_loop_chk_eq T s.cmd_buf (CMD_BUF_SIZE - (s.cmd_buf_pos + 1))
      (s.cmd_buf_pos + 1) 0 (le_refl _)
    by_cases hr : (int_digits_loop T s.cmd_buf (CMD_BUF_SIZE - (s.cmd_buf_pos + 1))
        (s.cmd_buf_pos + 1) 0).1 < CMD_BUF_SIZE
    · by_cases hdot : s.cmd_buf (int_digits_loop T s.cmd_buf
          (CMD_BUF_SIZE - (s.cmd_buf_pos + 1)) (s.cmd_buf_pos + 1) 0).1 = 46
      · have e2 := dec_digits_loop_chk_eq T s.cmd_buf
          (CMD_BUF_SIZE - ((int_digits_loop T s.cmd_buf (CMD_BUF_SIZE - (s.cmd_buf_pos + 1))
            (s.cmd_buf_pos + 1) 0).1 + 1))
          ((int_digits_loop T s.cmd_buf (CMD_BUF_SIZE - (s.cmd_buf_pos + 1))
            (s.cmd_buf_pos + 1) 0).1 + 1) 0
          (int_digits_loop T s.cmd_buf (CMD_BUF_SIZE - (s.cmd_buf_pos + 1))
            (s.cmd_buf_pos + 1) 0).2 (le_refl _)
        have hd : decide (s.cmd_buf (int_digits_loop T s.cmd_buf
            (CMD_BUF_SIZE - (s.cmd_buf_pos + 1)) (s.cmd_buf_pos + 1) 0).1 = 46) = true :=
          decide_eq_true hdot
        rw [tok_number_raw T s hp hl h3 h4, if_pos ⟨hr, hdot⟩]
        simp only [next_token_chk, read_cmd_buf, if_pos hp, if_neg h1, if_neg h2,
          if_neg h3, if_pos h4, Option.some_bind, e1, if_pos hr, hd, if_true, e2]
      · have hd : decide (s.cmd_buf (int_digits_loop T s.cmd_buf
            (CMD_BUF_SIZE - (s.cmd_buf_pos + 1)) (s.cmd_buf_pos + 1) 0).1 = 46) = false :=
          decide_eq_false hdot
        rw [tok_number_raw T s hp hl h3 h4, if_neg (fun h => hdot h.2)]
        simp only [next_token_chk, read_cmd_buf, if_pos hp, if_neg h1, if_neg h2,
          if_neg h3, if_pos h4, Option.some_bind, e1, if_pos hr, hd]
        rfl
    · rw [tok_number_raw T s hp hl h3 h4, if_neg (fun h => hr h.1)]
      simp only [next_token_chk, read_cmd_buf, if_pos hp, if_neg h1, if_neg h2,
        if_neg h3, if_pos h4, Option.some_bind, e1, if_neg hr]
      rfl
  by_cases h5 : s.cmd_buf s.cmd_buf_pos = 34
  · have e1 := str_loop_chk_eq T s.cmd_buf (CMD_BUF_SIZE - (s.cmd_buf_pos + 1))
      (s.cmd_buf_pos + 1) 0 s.token_value.charv (le_refl _)
    rw [tok_quote_raw T s hp h5]
    by_cases hr : (str_loop T s.cmd_buf (CMD_BUF_SIZE - (s.cmd_buf_pos + 1))
        (s.cmd_buf_pos + 1) 0 s.token_value.charv).1 ≥ CMD_BUF_SIZE
    · rw [if_pos (Or.inl hr)]
      simp only [next_token_chk, read_cmd_buf, if_pos hp, if_neg h1, if_neg h2,
        if_neg h3, if_neg h4, if_pos h5, Option.some_bind, e1, if_pos hr, if_true]
    · have hlt : (str_loop T s.cmd_buf (CMD_BUF_SIZE - (s.cmd_buf_pos + 1))
          (s.cmd_buf_pos + 1) 0 s.token_value.charv).1 < CMD_BUF_SIZE := by omega
      by_cases he : s.cmd_buf (str_loop T s.cmd_buf (CMD_BUF_SIZE - (s.cmd_buf_pos + 1))
            (s.cmd_buf_pos + 1) 0 s.token_value.charv).1 = T.CMDEND
      · have hd : decide (s.cmd_buf (str_loop T s.cmd_buf (CMD_BUF_SIZE - (s.cmd_buf_pos + 1))
            (s.cmd_buf_pos + 1) 0 s.token_value.charv).1 = T.CMDEND) = true :=
          decide_eq_true he
        rw [if_pos (Or.inr he)]
        simp only [next_token_chk, read_cmd_buf, if_pos hp, if_neg h1, if_neg h2,
          if_neg h3, if_neg h4, if_pos h5, Option.some_bind, e1, if_neg hr, if_pos hlt,
          hd, if_true]
      · have hd : decide (s.cmd_buf (str_loop T s.cmd_buf (CMD_BUF_SIZE - (s.cmd_buf_pos + 1))
            (s.cmd_buf_pos + 1) 0 s.token_value.charv).1 = T.CMDEND) = false :=
          decide_eq_false he
        rw [if_neg (fun h => h.elim hr he)]
        simp only [next_token_chk, read_cmd_buf, if_pos hp, if_neg h1, if_neg h2,
          if_neg h3, if_neg h4, if_pos h5, Option.some_bind, e1, if_neg hr, if_pos hlt,
          hd]
        rfl
  by_cases h6 : s.cmd_buf s.cmd_buf_pos = T.CMDEND
  · simp only [next_token_chk, next_token, read_cmd_buf, if_pos hp, if_neg h1, if_neg h2,
      if_neg h3, if_neg h4, if_neg h5, if_pos h6, Option.some_bind]
  · simp only [next_token_chk, next_token, read_cmd_buf, if_pos hp, if_neg h1, if_neg h2,
      if_neg h3, if_neg h4, if_neg h5, if_neg h6, Option.some_bind]

/-- Claim C19. The sign of a decimal whose integer digits are all `0` is not
recorded. Let `s1` have its cursor on the literal `0..0.f1..fk` (with `n ≥ 1`
zeros and any fraction digits) and `s2` have its cursor on the same literal with
a `-` in front, each literal inside the buffer and followed by a byte that is
not a digit or by the end of the buffer. Then both calls of `next_token` return
0 with a Decimal token, both tokens have `int_part = 0`, and both have the same
`dec_part`, the value accumulated from the first two fraction digits. -/
theorem C19_sign_of_zero_decimal_is_not_recorded (T : target_t) (n : Nat) (hn : 1 ≤ n)
    (fs : List Nat) (hf : ∀ d ∈ fs, d < 10) (s1 s2 : state_t)
    (h1 : holds_at s1.cmd_buf s1.cmd_buf_pos (List.replicate n 48 ++ [46] ++ digit_bytes fs))
    (e1 : number_ends s1.cmd_buf (s1.cmd_buf_pos + n + 1 + fs.length))
    (h2 : holds_at s2.cmd_buf s2.cmd_buf_pos
      ([45] ++ List.replicate n 48 ++ [46] ++ digit_bytes fs))
    (e2 : number_ends s2.cmd_buf (s2.cmd_buf_pos + 1 + n + 1 + fs.length)) :
    (next_token T s1).1 = 0 ∧ (next_token T s2).1 = 0 ∧
    (next_token T s1).2.token_type = TOKEN_DEC ∧
    (next_token T s2).2.token_type = TOKEN_DEC ∧
    (next_token T s1).2.token_value.int_part = 0 ∧
    (next_token T s2).2.token_value.int_part = 0 ∧
    (next_token T s1).2.token_value.dec_part = dec_acc T (fs.take 2) ∧
    (next_token T s2).2.token_value.dec_part = dec_acc T (fs.take 2) := by
  obtain ⟨m, rfl⟩ : ∃ m, n = m + 1 := ⟨n - 1, by omega⟩
  have hdl : (digit_bytes fs).length = fs.length := by simp [digit_bytes]
  have hfit1 : s1.cmd_buf_pos + (m + 1 + 1 + fs.length) ≤ CMD_BUF_SIZE := by
    have := h1.1
    simp [hdl] at this
    omega
  have hfit2 : s2.cmd_buf_pos + (1 + (m + 1) + 1 + fs.length) ≤ CMD_BUF_SIZE := by
    have := h2.1
    simp [hdl] at this
    omega
  have htl : (fs.take 2).length ≤ 2 := by simp
  have htl2 : (fs.take 2).length ≤ fs.length := by simp
  have htf : ∀ d ∈ fs.take 2, d < 10 := fun d hd => hf d (List.mem_of_mem_take hd)
  have htg : ∀ j, j < (fs.take 2).length → (fs.take 2).getD j 0 = fs.getD j 0 := by
    intro j hj
    have : j < 2 := by omega
    simp [List.getD_eq_getElem?_getD, List.getElem?_take, this]
  have hfull : (fs.take 2).length < 2 → (fs.take 2).length = fs.length := by
    intro h
    simp only [List.length_take] at h ⊢
    omega
  -- the literal without the sign
  have a0 : s1.cmd_buf s1.cmd_buf_pos = 48 := by
    have := holds_at_pre h1 0 (by simp)
    simpa using this
  have az : ∀ j, j < m → s1.cmd_buf (s1.cmd_buf_pos + 1 + j) = 48 := by
    intro j hj
    have := holds_at_pre h1 (1 + j) (by simp; omega)
    rw [getD_replicate_lt _ _ _ (by omega), ← Nat.add_assoc] at this
    exact this
  have ad : s1.cmd_buf (s1.cmd_buf_pos + 1 + m) = 46 := by
    have := holds_at_mid h1 0 (by simp)
    simp only [List.length_replicate, Nat.add_zero, List.getD_cons_zero] at this
    have e : s1.cmd_buf_pos + 1 + m = s1.cmd_buf_pos + (m + 1) := by omega
    rw [e]
    exact this
  have af : ∀ j, j < (fs.take 2).length →
      s1.cmd_buf (s1.cmd_buf_pos + 1 + m + 1 + j) = 48 + (fs.take 2).getD j 0 := by
    intro j hj
    have hj2 : j < fs.length := by omega
    have := holds_at_post h1 j (by rw [hdl]; exact hj2)
    simp only [List.length_replicate, List.length_singleton] at this
    have e : s1.cmd_buf_pos + 1 + m + 1 + j = s1.cmd_buf_pos + (m + 1) + 1 + j := by omega
    rw [e, this, htg j hj, digit_bytes_getD fs j hj2]
  have k1 := tok_zero_decimal T s1.cmd_buf s1.cmd_buf_pos m (fs.take 2)
    (Or.inr (by rw [a0]; decide)) az ad htf htl af (by omega)
    (fun h => by
      have := hfull h
      rw [this]
      have e : s1.cmd_buf_pos + 1 + m + 1 + fs.length
          = s1.cmd_buf_pos + (m + 1) + 1 + fs.length := by omega
      rw [e]
      exact e1) s1 rfl rfl
  -- the literal with the sign
  have h2b : holds_at s2.cmd_buf s2.cmd_buf_pos
      ([45] ++ List.replicate (m + 1) 48 ++ ([46] ++ digit_bytes fs)) := by
    simpa [List.append_assoc] using h2
  have b0 : s2.cmd_buf s2.cmd_buf_pos = 45 := by
    have := holds_at_pre h2b 0 (by simp)
    simpa using this
  have bz : ∀ j, j < m + 1 → s2.cmd_buf (s2.cmd_buf_pos + 1 + j) = 48 := by
    intro j hj
    have := holds_at_mid h2b j (by simpa using hj)
    rw [getD_replicate_lt _ _ _ hj] at this
    simpa using this
  have bd : s2.cmd_buf (s2.cmd_buf_pos + 1 + (m + 1)) = 46 := by
    have := holds_at_mid h2 0 (by simp)
    simpa [Nat.add_assoc, Nat.add_comm, Nat.add_left_comm] using this
  have bf : ∀ j, j < (fs.take 2).length →
      s2.cmd_buf (s2.cmd_buf_pos + 1 + (m + 1) + 1 + j) = 48 + (fs.take 2).getD j 0 := by
    intro j hj
    have hj2 : j < fs.length := by omega
    have := holds_at_post h2 j (by rw [hdl]; exact hj2)
    simp only [List.length_append, List.length_replicate, List.length_singleton] at this
    have e : s2.cmd_buf_pos + 1 + (m + 1) + 1 + j
        = s2.cmd_buf_pos + (1 + (m + 1)) + 1 + j := by omega
    rw [e, this, htg j hj, digit_bytes_getD fs j hj2]
  have k2 := tok_zero_decimal T s2.cmd_buf s2.cmd_buf_pos (m + 1) (fs.take 2)
    (Or.inl b0) bz bd htf htl bf (by omega)
    (fun h => by
      have := hfull h
      rw [this]
      exact e2) s2 rfl rfl
  rw [k1, k2]
  exact ⟨rfl, rfl, rfl, rfl, rfl, rfl, rfl, rfl⟩

theorem C19_sign_of_zero_decimal_is_not_recorded_witness :
    (next_token lf16 (state_at (buf_of [48, 46, 53, 48, 10]) 0)).2.token_type = TOKEN_DEC ∧
    (next_token lf16 (state_at (buf_of [45, 48, 46, 53, 48, 10]) 0)).2.token_type
      = TOKEN_DEC ∧
    (next_token lf16 (state_at (buf_of [48, 46, 53, 48, 10]) 0)).2.token_value.int_part = 0 ∧
    (next_token lf16 (state_at (buf_of [45, 48, 46, 53, 48, 10]) 0)).2.token_value.int_part
      = 0 ∧
    (next_token lf16 (state_at (buf_of [48, 46, 53, 48, 10]) 0)).2.token_value.dec_part = 50 ∧
    (next_token lf16 (state_at (buf_of [45, 48, 46, 53, 48, 10]) 0)).2.token_value.dec_part
      = 50 := by
  have h := C19_sign_of_zero_decimal_is_not_recorded lf16 1 (by decide) [5, 0] (by decide)
    (state_at (buf_of [48, 46, 53, 48, 10]) 0) (state_at (buf_of [45, 48, 46, 53, 48, 10]) 0)
    (by decide) (by decide) (by decide) (by decide)
  have hv : dec_acc lf16 ([5, 0].take 2) = 50 := by decide
  rw [hv] at h
  exact ⟨h.2.2.1, h.2.2.2.1, h.2.2.2.2.1, h.2.2.2.2.2.1, h.2.2.2.2.2.2.1, h.2.2.2.2.2.2.2⟩

end Gpcorecom
